import Mathlib

/-!
# DBT-RISE-Core: the translation unit builder and execution driver of `vm_base`

A shallow embedding of `src/incl/iss/vm_base.h`.

* Generated LLVM IR is represented by the sequence of effectful instructions the
  code hands to the IR builder (`Inst`); the pure value computations feeding an
  instruction are kept as its operand tree (`Value`).
* C++ exceptions are explicit: a fallible operation returns `Except Exn _`, and an
  operation that has side effects before it raises returns the state it left behind
  next to the `Except` value.
* Machine integers are natural numbers reduced modulo `2 ^ w` where the source
  computes in `w` bits.
-/

namespace iss
namespace vm

/-! ## Enumerations -/

/-- Enumeration `continuation_e` of vm_base.h: the outcomes a translation unit ends with. -/
inductive continuation_e
  | CONT
  | BRANCH
  | FLUSH
  | TRAP
  deriving DecidableEq, Repr

/-- Enumeration `sync_type`; the source documents its encoding as
NO_SYNC = 0, PRE_SYNC = 1, POST_SYNC = 2, ALL_SYNC = 3. -/
inductive sync_type
  | NO_SYNC
  | PRE_SYNC
  | POST_SYNC
  | ALL_SYNC
  deriving DecidableEq, Repr

/-- Integer value of a `sync_type` enumerator. -/
def sync_type.val : sync_type → Nat
  | .NO_SYNC => 0
  | .PRE_SYNC => 1
  | .POST_SYNC => 2
  | .ALL_SYNC => 3

/-- The conversion `static_cast<sync_type>(n)` for the two-bit values the code builds. -/
def sync_type.cast (n : Nat) : sync_type :=
  match n % 4 with
  | 0 => .NO_SYNC
  | 1 => .PRE_SYNC
  | 2 => .POST_SYNC
  | _ => .ALL_SYNC

/-- Enumeration `iss::arch_if::exec_phase`, restricted to the two tags `notifier_mapping` uses. -/
inductive exec_phase
  | ISTART
  | IEND
  deriving DecidableEq, Repr

/-- The functions of the runtime-call surface that generated code may call. -/
inductive runtime_fn
  | get_reg
  | set_reg
  | get_flag
  | set_flag
  | update_flags
  | read_mem
  | write_mem
  | notify_phase
  | pre_instr_sync
  | call_plugin
  deriving DecidableEq, Repr

/-- The exceptions the driver and the builder distinguish, and the failure of an `assert`. -/
inductive Exn
  | trap_access (id addr : Nat)
  | simulation_stopped (state : Int)
  | decoding_error (addr : Nat)
  | assertion_failed
  deriving DecidableEq, Repr

/-! ## Generated code -/

/-- Handle of an `llvm::BasicBlock`. -/
abbrev Block := Nat

/-- An `llvm::Value` as the operand tree that computes it. `alloca bits n` is the stack slot
for an integer of `bits` bits allocated when `n` instructions had been inserted,
`bitcast v size` the pointer `v` cast to a pointer to an integer of `size` bits, and
`result_of fn n` the value returned by the call of `fn` inserted as instruction number `n`. -/
inductive Value
  | const (size val : Nat)
  | vm_ptr
  | core_ptr
  | regs_ptr
  | ptr_to_int (v : Value) (size : Nat)
  | int_to_ptr (v : Value) (size : Nat)
  | load (ptr : Value)
  | add (a b : Value)
  | sub (a b : Value)
  | xor (a b : Value)
  | and (a b : Value)
  | or (a b : Value)
  | zext (v : Value) (size : Nat)
  | trunc (v : Value) (size : Nat)
  | get_reg (core idx : Value)
  | alloca (bits at_inst : Nat)
  | bitcast (v : Value) (size : Nat)
  | result_of (fn : runtime_fn) (at_inst : Nat)
  | icmp_ne (a b : Value)
  deriving DecidableEq, Repr

/-- An effectful instruction handed to the IR builder. -/
inductive Inst
  | store (v ptr : Value)
  | call (fn : runtime_fn) (args : List Value)
  | br (dest : Block)
  | cond_br (cond : Value) (ifTrue ifFalse : Block) (weights : List Nat)
  | ret (v : Value)
  deriving DecidableEq, Repr

/-- Declarations of `arch::traits<ARCH>` and `arch_if` that vm_base.h uses and that are
declared outside it: register indices, register layout, and the integer encoding of
the phase tags. -/
structure arch_traits where
  PC : Nat
  NEXT_PC : Nat
  ICOUNT : Nat
  PENDING_TRAP : Nat
  TRAP_STATE : Nat
  reg_bit_width : Nat → Nat
  reg_byte_offset : Nat → Nat
  phase_code : exec_phase → Nat

/-- The method `gen_const(size, val)`: the constant `APInt(size, val)`, which keeps the low
`size` bits of `val`. -/
def gen_const (size val : Nat) : Value :=
  .const size (val % 2 ^ size)

/-- The method `get_reg_ptr(i)`: the register base plus the register's byte offset, cast to a
pointer to an integer of the register's width. -/
def get_reg_ptr (tr : arch_traits) (i : Nat) : Value :=
  .int_to_ptr (.add (.ptr_to_int .regs_ptr 64) (gen_const 64 (tr.reg_byte_offset i)))
    (tr.reg_bit_width i)

/-- The method `reg_index(r)`: a 16 bit constant. -/
def reg_index (r : Nat) : Value :=
  .const 16 (r % 2 ^ 16)

/-- The method `adj_from64(val, len)`. -/
def adj_from64 (val : Value) (len : Nat) : Value :=
  if len ≠ 64 then .trunc val len else val

/-- The method `gen_get_reg(r)`. -/
def gen_get_reg (tr : arch_traits) (r : Nat) : Value :=
  adj_from64 (.get_reg .core_ptr (reg_index r)) (tr.reg_bit_width r)

/-! ## Plugins and synchronisation calls -/

/-- What vm_base.h uses of a `vm_plugin`: its address (the plugin's identity), the answer
of its `registration` handshake to a version string, and `get_sync()`. -/
structure vm_plugin where
  addr : Nat
  registration : String → Bool
  get_sync : sync_type

/-- The structure `vm_base::plugin_entry`. -/
structure plugin_entry where
  sync : sync_type
  plugin : vm_plugin
  plugin_ptr : Value

/-- The members of `vm_base` that code generation reads. -/
structure vm_base where
  traits : arch_traits
  core_id : Nat
  cluster_id : Nat
  sync_exec : sync_type
  debugging_enabled : Bool
  plugins : List plugin_entry

/-- The member `notifier_mapping`. -/
def notifier_mapping : sync_type → exec_phase
  | .NO_SYNC => .ISTART
  | .PRE_SYNC => .ISTART
  | .POST_SYNC => .IEND
  | .ALL_SYNC => .ISTART

/-- The method `register_plugin(plugin)`. -/
def vm_base.register_plugin (vm : vm_base) (plugin : vm_plugin) : vm_base :=
  if plugin.registration "1.0" then
    let ptr := Value.const 64 (plugin.addr % 2 ^ 64)
    { vm with plugins := vm.plugins ++ [{ sync := plugin.get_sync, plugin := plugin, plugin_ptr := ptr }] }
  else vm

/-- The call `gen_sync` emits for one plugin entry. -/
def vm_base.plugin_call (vm : vm_base) (s : sync_type) (inst_id : Nat) (e : plugin_entry) : Inst :=
  .call .call_plugin
    [e.plugin_ptr, gen_const 32 vm.core_id, gen_const 32 vm.cluster_id, gen_const 32 s.val,
      gen_const 32 inst_id]

/-- The loop of `gen_sync` over the registered plugins. -/
def vm_base.gen_sync_plugins (vm : vm_base) (s : sync_type) (inst_id : Nat) :
    List plugin_entry → List Inst
  | [] => []
  | e :: es =>
    (if e.sync.val &&& s.val ≠ 0 then [vm.plugin_call s inst_id e] else [])
      ++ vm.gen_sync_plugins s inst_id es

/-- The instructions `gen_sync` emits before it looks at `sync_exec` and the plugins. -/
def vm_base.gen_sync_pre (vm : vm_base) (s : sync_type) : List Inst :=
  if s = .PRE_SYNC then
    [ .store (.add (.load (get_reg_ptr vm.traits vm.traits.ICOUNT)) (gen_const 64 1))
        (get_reg_ptr vm.traits vm.traits.ICOUNT),
      .store (.load (get_reg_ptr vm.traits vm.traits.NEXT_PC)) (get_reg_ptr vm.traits vm.traits.PC),
      .store (.load (get_reg_ptr vm.traits vm.traits.PENDING_TRAP))
        (get_reg_ptr vm.traits vm.traits.TRAP_STATE) ]
      ++ (if vm.debugging_enabled then [.call .pre_instr_sync [.vm_ptr]] else [])
  else []

/-- The method `gen_sync(s, inst_id)`: the instructions it appends at the insertion point. -/
def vm_base.gen_sync (vm : vm_base) (s : sync_type) (inst_id : Nat) : List Inst :=
  vm.gen_sync_pre s
    ++ (if s.val &&& vm.sync_exec.val ≠ 0 then
          [.call .notify_phase [.core_ptr, gen_const 32 (vm.traits.phase_code (notifier_mapping s))]]
        else [])
    ++ vm.gen_sync_plugins s inst_id vm.plugins

/-- Recogniser of a call to a given runtime function. -/
def Inst.is_call (fn : runtime_fn) : Inst → Bool
  | .call g _ => g = fn
  | _ => false

/-- Recogniser of a `call_plugin` call whose first argument is the given plugin handle. -/
def Inst.is_plugin_call_of (h : Value) : Inst → Bool
  | .call .call_plugin (a :: _) => a = h
  | _ => false

/-! ## The translation unit builder -/

/-- The constant `vm_base::blk_size`. -/
def blk_size : Nat := 128

/-- An `llvm::Function` under construction: its symbol name and the instructions inserted so
far, each with the basic block it was inserted into (`none`: a null insertion block). -/
structure Function where
  name : String
  body : List (Option Block × Inst)
  deriving DecidableEq, Repr

/-- Handle of the block `leave_blk` that `disass` creates. -/
def leave_blk : Block := 0

/-- Handle of the block `trap_blk` that `disass` creates. -/
def trap_blk : Block := 1

/-- Handle of the block "entry" that `disass` creates. -/
def entry_blk : Block := 2

/-- Upper-case hexadecimal digits of a number, most significant first. -/
def hex_upper (n : Nat) : List Char :=
  (Nat.toDigits 16 n).map Char.toUpper

/-- The conversion `%016lX` of `snprintf` applied to a 64 bit value. -/
def format_016lX (n : Nat) : List Char :=
  List.replicate (16 - (hex_upper n).length) '0' ++ hex_upper n

/-- The method `GenerateUniqueName(str, mod)`: `snprintf` into a buffer of 21 bytes keeps at
most 20 characters of the formatted text, which is then appended to `str`. -/
def GenerateUniqueName (str : String) (mod : Nat) : String :=
  str ++ String.mk ((['@', '0', 'x'] ++ format_016lX (mod % 2 ^ 64) ++ ['_']).take 20)

/-- The effect of one call of `gen_single_inst_behavior(pc_v, inst_cnt, this_block)`: the values
it leaves in its two reference parameters, the architectural state, the instructions it
inserted, and either the returned pair or the exception it raised. The first four are
observable also when the call raises. -/
structure gen_result (W : Type) where
  core : W
  pc_v : Nat
  inst_cnt : Nat
  emitted : List (Option Block × Inst)
  result : Except Exn (continuation_e × Option Block)

/-- The architecture-specific collaborators of `vm_base<ARCH>`: the core (`arch_if`), the
pure virtual methods a derived class supplies, the meaning of calling a compiled unit, and
whether the build defines `NDEBUG`. `W` is the state of the simulated core. -/
structure arch (W : Type) where
  v2p : W → Nat → Except Exn Nat
  enter_trap : W → Nat → Nat → W × Nat
  get_icount : W → Nat
  get_pc : W → Nat
  gen_single_inst_behavior :
    vm_base → List (Nat × Nat) → W → Nat → Nat → Option Block → gen_result W
  gen_trap_behavior : vm_base → List (Option Block × Inst)
  call_unit : Function → W → W × Except Exn Nat
  NDEBUG : Bool

/-- The method `gen_leave_behavior(leave_blk)` of vm_base: return the register NEXT_PC. -/
def vm_base.gen_leave_behavior (vm : vm_base) : List (Option Block × Inst) :=
  [(some leave_blk, .ret (gen_get_reg vm.traits vm.traits.NEXT_PC))]

/-- The decrement `--cur_pc` of a 64 bit address. -/
def dec64 (x : Nat) : Nat :=
  (x + (2 ^ 64 - 1)) % 2 ^ 64

/-- The local variables of `disass` while its loop runs, the function body built so far, and
the number of calls of `gen_single_inst_behavior` made so far. -/
structure disass_state (W : Type) where
  core : W
  cur_pc : Nat
  num_inst : Nat
  cur_blk : Nat
  cont : continuation_e
  bb : Option Block
  body : List (Option Block × Inst)
  invocations : Nat

/-- The loop `while (cont == CONT && cur_blk < blk_size)` of `disass`. The first argument
bounds the iterations still possible, `blk_size - cur_blk`. The second component of the result
is the exception that left the loop, if any: the assignment to `cont` and `bb` and the
increment of `cur_blk` are then not done. -/
def disass_loop {W : Type} (a : arch W) (vm : vm_base) (stack : List (Nat × Nat)) :
    Nat → disass_state W → disass_state W × Option Exn
  | 0, s => (s, none)
  | n + 1, s =>
    if s.cont = .CONT ∧ s.cur_blk < blk_size then
      let o := a.gen_single_inst_behavior vm stack s.core s.cur_pc s.num_inst s.bb
      let s1 : disass_state W :=
        { s with
          core := o.core, cur_pc := o.pc_v, num_inst := o.inst_cnt,
          body := s.body ++ o.emitted, invocations := s.invocations + 1 }
      match o.result with
      | .ok (c, b) => disass_loop a vm stack n { s1 with cont := c, bb := b, cur_blk := s.cur_blk + 1 }
      | .error e => (s1, some e)
    else (s, none)

/-- The handler `catch (trap_access &ta)` of `disass`, entered with the locals `s`. -/
def disass_catch {W : Type} (a : arch W) (pc : Nat) (name : String) (s : disass_state W)
    (id addr : Nat) : Except Exn (continuation_e × Function) :=
  let cur_pc := dec64 s.cur_pc
  match a.v2p s.core cur_pc with
  | .error e => .error e
  | .ok _ =>
    if pc ≤ cur_pc then .ok (s.cont, { name := name, body := s.body ++ [(s.bb, .br leave_blk)] })
    else .error (.trap_access id addr)

/-- The statements of the `try` block of `disass` after its loop. A `trap_access` raised by
`v2p` there is caught by the handler of the same `try`. -/
def disass_finish {W : Type} (a : arch W) (pc : Nat) (name : String) (s : disass_state W) :
    Except Exn (continuation_e × Function) :=
  let body :=
    match s.bb with
    | some b => s.body ++ [(some b, .br leave_blk)]
    | none => s.body
  let cur_pc := dec64 s.cur_pc
  match a.v2p s.core cur_pc with
  | .ok _ =>
    if a.NDEBUG ∨ pc ≤ cur_pc then .ok (s.cont, { name := name, body := body })
    else .error .assertion_failed
  | .error (.trap_access id addr) =>
    disass_catch a pc name { s with cur_pc := cur_pc, body := body } id addr
  | .error e => .error e

/-- The locals of `disass` when it enters its loop. -/
def disass_init {W : Type} (a : arch W) (vm : vm_base) (core : W) (pc : Nat) : disass_state W :=
  { core := core, cur_pc := pc, num_inst := 0, cur_blk := 0, cont := .CONT,
    bb := some entry_blk, body := vm.gen_leave_behavior ++ a.gen_trap_behavior vm,
    invocations := 0 }

/-- What `disass` leaves behind. -/
structure disass_result (W : Type) where
  core : W
  processing_pc : List (Nat × Nat)
  invocations : Nat
  result : Except Exn (continuation_e × Function)

/-- The method `disass(pc)`, called with the stack `processing_pc`. The entry pushed by
`processing_pc_entry` is popped by its destructor on every return and on every exception; a
failed `assert` aborts and runs no destructor. -/
def disass {W : Type} (a : arch W) (vm : vm_base) (core : W) (processing_pc : List (Nat × Nat))
    (pc : Nat) : disass_result W :=
  match a.v2p core pc with
  | .error e => { core := core, processing_pc := processing_pc, invocations := 0, result := .error e }
  | .ok pc_p =>
    let stack := (pc, pc_p) :: processing_pc
    let name := GenerateUniqueName "block" pc_p
    let r := disass_loop a vm stack blk_size (disass_init a vm core pc)
    let res :=
      match r.2 with
      | none => disass_finish a pc name r.1
      | some (.trap_access id addr) => disass_catch a pc name r.1 id addr
      | some e => .error e
    { core := r.1.core,
      processing_pc :=
        (match res with
         | .error .assertion_failed => stack
         | _ => processing_pc),
      invocations := r.1.invocations,
      result := res }

/-- The locals of `disass` after `n` further calls of `gen_single_inst_behavior`, provided each
of them returns the outcome CONT and leaves the virtual address strictly greater than it found
it and below 2 ^ 64 (a positive advance without wrap-around); `none` otherwise. -/
def after_cont_invocations {W : Type} (a : arch W) (vm : vm_base) (stack : List (Nat × Nat)) :
    Nat → disass_state W → Option (disass_state W)
  | 0, s => some s
  | n + 1, s =>
    let o := a.gen_single_inst_behavior vm stack s.core s.cur_pc s.num_inst s.bb
    match o.result with
    | .ok (.CONT, b) =>
      if s.cur_pc < o.pc_v ∧ o.pc_v < 2 ^ 64 then
        after_cont_invocations a vm stack n
          { core := o.core, cur_pc := o.pc_v, num_inst := o.inst_cnt, cur_blk := s.cur_blk + 1,
            cont := .CONT, bb := b, body := s.body ++ o.emitted,
            invocations := s.invocations + 1 }
      else none
    | _ => none

/-- Modelled from the spec: the translation cache of the code generation backend, the member
`jitHelper`, whose keyed operations (`getPointerToFunction(cluster, address, builder, dump)`,
`flush_entries`, `remove_entry`) are not defined in the sources at hand. A translation entry
maps (cluster, physical start address) to a compiled routine, with at most one entry per key. -/
structure translation_cache where
  entries : List ((Nat × Nat) × Function)
  deriving DecidableEq, Repr

/-- Modelled from the spec: the lookup half of `getOrBuild` of the backend, "if an entry already
exists for that key, it is returned without invoking the callback". -/
def translation_cache.lookup (c : translation_cache) (cluster pc_p : Nat) : Option Function :=
  match c.entries.find? (fun e => e.1 = (cluster, pc_p)) with
  | some e => some e.2
  | none => none

/-- Modelled from the spec: the registering half of `getOrBuild` of the backend, "registers it
under the key"; "creating a new entry for an existing key replaces the old one". -/
def translation_cache.register (c : translation_cache) (cluster pc_p : Nat) (f : Function) :
    translation_cache :=
  { entries := ((cluster, pc_p), f) :: c.entries.filter (fun e => e.1 ≠ (cluster, pc_p)) }

/-- Modelled from the spec: `flush(cluster)` of the backend, "discards all entries for a
cluster". -/
def translation_cache.flush_entries (c : translation_cache) (cluster : Nat) : translation_cache :=
  { entries := c.entries.filter (fun e => e.1.1 ≠ cluster) }

/-- Modelled from the spec: `remove(cluster, physicalAddress)` of the backend, "discards exactly
one entry". -/
def translation_cache.remove_entry (c : translation_cache) (cluster pc_p : Nat) :
    translation_cache :=
  { entries := c.entries.filter (fun e => e.1 ≠ (cluster, pc_p)) }

/-! ## The execution driver -/

/-- The calls the driver makes on its collaborators, in the order it makes them: a unit was
built by `disass` for a physical address and ended with an outcome, a compiled unit was
invoked, `jitHelper.flush_entries`, `jitHelper.remove_entry`, `core.enter_trap`. -/
inductive Event
  | built (pc_p : Nat) (cont : continuation_e)
  | invoked (pc_p : Nat)
  | flush_entries (cluster : Nat)
  | remove_entry (cluster pc_p : Nat)
  | enter_trap (id addr : Nat)
  deriving DecidableEq, Repr

/-- The state `start` works on: the members of the vm, the core, the locals `pc` and `cont`
of `start`, and the record of calls made so far. -/
structure driver_state (W : Type) where
  vm : vm_base
  core : W
  pc : Nat
  cont : continuation_e
  jitHelper : translation_cache
  processing_pc : List (Nat × Nat)
  trace : List Event

/-- The statements of the inner `try` block of `start` from the call of the compiled unit `f`
on, entered with `pc_p` and `f` computed. -/
def run_unit {W : Type} (a : arch W) (s : driver_state W) (pc_p : Nat) (f : Function) :
    driver_state W × Except Exn Unit :=
  let r := a.call_unit f s.core
  let s1 : driver_state W := { s with core := r.1, trace := s.trace ++ [.invoked pc_p] }
  match r.2 with
  | .error e => (s1, .error e)
  | .ok next =>
    let s2 : driver_state W := { s1 with pc := next }
    let s3 : driver_state W :=
      if s2.cont = .FLUSH then
        { s2 with
          jitHelper := s2.jitHelper.flush_entries s2.vm.cluster_id,
          trace := s2.trace ++ [.flush_entries s2.vm.cluster_id] }
      else s2
    let s4 : driver_state W :=
      if s3.cont = .TRAP then
        { s3 with
          jitHelper := s3.jitHelper.remove_entry s3.vm.cluster_id pc_p,
          trace := s3.trace ++ [.remove_entry s3.vm.cluster_id pc_p] }
      else s3
    (s4, .ok ())

/-- The inner `try` block of `start`. `getPointerToFunction` returns a cached unit without
calling `build_if_needed`; otherwise `build_if_needed` runs `disass(pc)` and assigns its
outcome to `cont`, and the unit is registered. An exception leaves the block at once. -/
def try_block {W : Type} (a : arch W) (s : driver_state W) : driver_state W × Except Exn Unit :=
  match a.v2p s.core s.pc with
  | .error e => (s, .error e)
  | .ok pc_p =>
    match s.jitHelper.lookup s.vm.cluster_id pc_p with
    | some f => run_unit a s pc_p f
    | none =>
      let d := disass a s.vm s.core s.processing_pc s.pc
      let s1 : driver_state W := { s with core := d.core, processing_pc := d.processing_pc }
      match d.result with
      | .error e => (s1, .error e)
      | .ok (c, func) =>
        run_unit a
          { s1 with
            cont := c,
            jitHelper := s1.jitHelper.register s1.vm.cluster_id pc_p func,
            trace := s1.trace ++ [.built pc_p c] }
          pc_p func

/-- One iteration of the loop of `start`: the inner `try` block and its handler
`catch (trap_access &ta)`. Every other exception leaves the loop. -/
def loop_body {W : Type} (a : arch W) (s : driver_state W) : driver_state W × Except Exn Unit :=
  match try_block a s with
  | (s1, .error (.trap_access id addr)) =>
    let r := a.enter_trap s1.core id addr
    ({ s1 with core := r.1, pc := r.2, trace := s1.trace ++ [.enter_trap id addr] }, .ok ())
  | r => r

/-- The conversion `(int64_t)` of a 64 bit unsigned value. -/
def to_int64 (x : Nat) : Int :=
  if x % 2 ^ 64 < 2 ^ 63 then ((x % 2 ^ 64 : Nat) : Int) else ((x % 2 ^ 64 : Nat) : Int) - 2 ^ 64

/-- How the loop of `start` was left; `out_of_steps` stands for a loop that is still running
after the number of iterations looked at. -/
inductive loop_end
  | limit_reached
  | thrown (e : Exn)
  | out_of_steps
  deriving DecidableEq, Repr

/-- The loop `while (icount < 0 || (int64_t)core.get_icount() < icount)` of `start`, followed
for at most the given number of iterations. -/
def start_loop {W : Type} (a : arch W) (icount : Int) :
    Nat → driver_state W → loop_end × driver_state W
  | 0, s => (.out_of_steps, s)
  | n + 1, s =>
    if icount < 0 ∨ to_int64 (a.get_icount s.core) < icount then
      match loop_body a s with
      | (s1, .ok _) => start_loop a icount n s1
      | (s1, .error e) => (.thrown e, s1)
    else (.limit_reached, s)

/-- How a call of `start` ends: it returns `error`, an exception it does not catch leaves it,
or it is still in its loop. -/
inductive start_result
  | returned (error : Int)
  | propagated (e : Exn)
  | running
  deriving DecidableEq, Repr

/-- The value of `error` and the way `start` ends for each way its loop can end. -/
def start_status : loop_end → start_result
  | .limit_reached => .returned 0
  | .thrown (.simulation_stopped state) => .returned (if state ≠ 1 then state else 0)
  | .thrown (.decoding_error _) => .returned (-1)
  | .thrown e => .propagated e
  | .out_of_steps => .running

/-- The state in which `start` enters its loop: `sync_exec` is set to PRE_SYNC when debugging
is enabled, `pc` is read from the register PC, `cont` is CONT. -/
def start_init {W : Type} (a : arch W) (s : driver_state W) : driver_state W :=
  { s with
    vm := if s.vm.debugging_enabled then { s.vm with sync_exec := .PRE_SYNC } else s.vm,
    pc := a.get_pc s.core,
    cont := .CONT }

/-- The method `start(icount, dump)`, its loop followed for at most `steps` iterations. -/
def start {W : Type} (a : arch W) (steps : Nat) (icount : Int) (s : driver_state W) :
    start_result × driver_state W :=
  let r := start_loop a icount steps (start_init a s)
  (start_status r.1, r.2)

/-! ## A small architecture for evaluating the model on concrete inputs -/

/-- Register layout of the test architecture: five 64 bit registers. -/
def demo_traits : arch_traits :=
  { PC := 0, NEXT_PC := 1, ICOUNT := 2, PENDING_TRAP := 3, TRAP_STATE := 4,
    reg_bit_width := fun _ => 64,
    reg_byte_offset := fun i => 8 * i,
    phase_code := fun p => match p with
      | .ISTART => 0
      | .IEND => 1 }

/-- A vm of the test architecture without plugins, not debugging. -/
def demo_vm : vm_base :=
  { traits := demo_traits, core_id := 0, cluster_id := 0, sync_exec := .NO_SYNC,
    debugging_enabled := false, plugins := [] }

/-- Instructions of the test architecture: an instruction that falls through, a jump that ends
the unit with a given outcome, a fetch fault raised before anything is emitted, an
instruction whose generator emits its synchronisation code and then raises an access trap,
an undecodable word, and an instruction that stops the simulation with a status. -/
inductive demo_insn
  | plain
  | jump (target : Nat) (cont : continuation_e)
  | fault (id : Nat)
  | late_fault (id : Nat)
  | illegal
  | stop (state : Int)
  deriving DecidableEq, Repr

/-- The store to NEXT_PC a test instruction emits. -/
def demo_set_next_pc (vm : vm_base) (target : Nat) : Inst :=
  .store (gen_const 64 target) (get_reg_ptr vm.traits vm.traits.NEXT_PC)

/-- The generator of the test architecture for a program that maps addresses to instructions.
Every translated instruction is four bytes long and starts with `gen_sync(PRE_SYNC, inst_cnt)`. -/
def demo_gen (prog : Nat → demo_insn) (vm : vm_base) (_stack : List (Nat × Nat)) (core : Nat)
    (pc_v inst_cnt : Nat) (this_block : Option Block) : gen_result Nat :=
  match prog pc_v with
  | .plain =>
    { core := core, pc_v := pc_v + 4, inst_cnt := inst_cnt + 1,
      emitted := ((vm.gen_sync .PRE_SYNC inst_cnt) ++ [demo_set_next_pc vm (pc_v + 4)]).map
        (fun i => (this_block, i)),
      result := .ok (.CONT, this_block) }
  | .jump target c =>
    { core := core, pc_v := pc_v + 4, inst_cnt := inst_cnt + 1,
      emitted := ((vm.gen_sync .PRE_SYNC inst_cnt) ++ [demo_set_next_pc vm target, .br leave_blk]).map
        (fun i => (this_block, i)),
      result := .ok (c, none) }
  | .fault id =>
    { core := core, pc_v := pc_v, inst_cnt := inst_cnt, emitted := [],
      result := .error (.trap_access id pc_v) }
  | .late_fault id =>
    { core := core, pc_v := pc_v, inst_cnt := inst_cnt + 1,
      emitted := (vm.gen_sync .PRE_SYNC inst_cnt).map (fun i => (this_block, i)),
      result := .error (.trap_access id pc_v) }
  | .illegal =>
    { core := core, pc_v := pc_v, inst_cnt := inst_cnt, emitted := [],
      result := .error (.decoding_error pc_v) }
  | .stop state =>
    { core := core, pc_v := pc_v, inst_cnt := inst_cnt, emitted := [],
      result := .error (.simulation_stopped state) }

/-- The increment of ICOUNT that `gen_sync(PRE_SYNC, _)` emits for the test architecture. -/
def demo_icount_store : Inst :=
  .store (.add (.load (get_reg_ptr demo_traits 2)) (gen_const 64 1)) (get_reg_ptr demo_traits 2)

/-- The constant last stored to NEXT_PC by a unit's code, `acc` when there is none. -/
def demo_next_pc : List (Option Block × Inst) → Nat → Nat
  | [], acc => acc
  | (_, .store (.const 64 v) p) :: rest, acc =>
    demo_next_pc rest (if p = get_reg_ptr demo_traits 1 then v else acc)
  | _ :: rest, acc => demo_next_pc rest acc

/-- The test architecture: the core state is its instruction count, addresses are mapped
one to one, the trap vector is 64, and calling a compiled unit adds one to the count for
every ICOUNT increment in the unit and returns the NEXT_PC the unit stored last. -/
def demo_arch (prog : Nat → demo_insn) : arch Nat :=
  { v2p := fun _ pc => .ok pc,
    enter_trap := fun core _ _ => (core, 64),
    get_icount := fun core => core,
    get_pc := fun _ => 0,
    gen_single_inst_behavior := demo_gen prog,
    gen_trap_behavior := fun _ => [],
    call_unit := fun f core =>
      ((core + f.body.countP (fun x => x.2 = demo_icount_store)) % 2 ^ 64,
        .ok (demo_next_pc f.body 0)),
    NDEBUG := false }

/-- The state in which the test runs enter `start`: nothing cached, nothing executed. -/
def demo_state : driver_state Nat :=
  { vm := demo_vm, core := 0, pc := 0, cont := .CONT, jitHelper := { entries := [] },
    processing_pc := [], trace := [] }

/-- The events that are neither a cache flush nor the removal of a cache entry. -/
def Event.keeps_cache : Event → Bool
  | .flush_entries _ => false
  | .remove_entry _ _ => false
  | _ => true

/-- A test program: the unit at address 0 is one jump to 100 ending with BRANCH, every other
unit is one jump to 0 ending with TRAP. -/
def demo_prog_evict : Nat → demo_insn :=
  fun pc => if pc = 0 then .jump 100 .BRANCH else .jump 0 .TRAP

/-- A test program: the unit at address 0 has two instructions and jumps back to 0. -/
def demo_prog_pair : Nat → demo_insn :=
  fun pc => if pc = 0 then .plain else .jump 0 .BRANCH

/-- A test program: a plain instruction at address 0, then an instruction whose generator emits
its synchronisation code before it raises an access trap. -/
def demo_prog_late : Nat → demo_insn :=
  fun pc => if pc = 0 then .plain else .late_fault 5

/-- A test program: a plain instruction at address 0, then a fetch fault. -/
def demo_prog_fetch_fault : Nat → demo_insn :=
  fun pc => if pc = 0 then .plain else .fault 5

/-- The locals of `disass` at address 0 of the test architecture after one plain instruction. -/
def demo_after_plain : disass_state Nat :=
  { core := 0, cur_pc := 4, num_inst := 1, cur_blk := 1, cont := .CONT, bb := some entry_blk,
    body := demo_vm.gen_leave_behavior
      ++ ((demo_vm.gen_sync .PRE_SYNC 0) ++ [demo_set_next_pc demo_vm 4]).map
          (fun i => (some entry_blk, i)),
    invocations := 1 }

/-- The core state the translation step of the iteration of `start` that begins in `s` leaves
behind: the state `disass` leaves when this iteration builds its unit, the state of `s` when
the unit is served from the cache or `v2p` raises. -/
def translated_core {W : Type} (a : arch W) (s : driver_state W) : W :=
  match a.v2p s.core s.pc with
  | .error _ => s.core
  | .ok pc_p =>
    match s.jitHelper.lookup s.vm.cluster_id pc_p with
    | some _ => s.core
    | none => (disass a s.vm s.core s.processing_pc s.pc).core

/-- The compiled unit the iteration of `start` that begins in `s` invokes: the cached unit or
the unit `disass` has just built; `none` when `v2p` or the construction of the unit raises. -/
def invoked_unit {W : Type} (a : arch W) (s : driver_state W) : Option Function :=
  match a.v2p s.core s.pc with
  | .error _ => none
  | .ok pc_p =>
    match s.jitHelper.lookup s.vm.cluster_id pc_p with
    | some f => some f
    | none =>
      match (disass a s.vm s.core s.processing_pc s.pc).result with
      | .error _ => none
      | .ok (_, func) => some func

/-- The states in which the iterations of the loop of `start` begin, for the run from `s`
followed for at most the given number of iterations. -/
def iteration_states {W : Type} (a : arch W) (icount : Int) :
    Nat → driver_state W → List (driver_state W)
  | 0, _ => []
  | n + 1, s =>
    if icount < 0 ∨ to_int64 (a.get_icount s.core) < icount then
      s :: (match loop_body a s with
            | (s1, .ok _) => iteration_states a icount n s1
            | (_, .error _) => [])
    else []

/-- The architecture `a` with a generator that is shown the processing stack `stk` on every
call, whatever stack it is called with. -/
def arch.with_stack {W : Type} (a : arch W) (stk : List (Nat × Nat)) : arch W :=
  { a with
    gen_single_inst_behavior := fun vm _ w pc_v inst_cnt bb =>
      a.gen_single_inst_behavior vm stk w pc_v inst_cnt bb }

/-- The constructor `vm_base(core, core_id, cluster_id)`: `sync_exec` is initialised to NO_SYNC
and then set to `static_cast<sync_type>(sync_exec | core.needed_sync())`; no plugin is
registered yet. -/
def vm_base.construct (traits : arch_traits) (needed_sync : sync_type) (debugging_enabled : Bool)
    (core_id cluster_id : Nat) : vm_base :=
  { traits := traits, core_id := core_id, cluster_id := cluster_id,
    sync_exec := sync_type.cast (sync_type.NO_SYNC.val ||| needed_sync.val),
    debugging_enabled := debugging_enabled, plugins := [] }

/-! ## Values of operand trees, conditional assignment, memory accesses -/

/-- The size `getScalarSizeInBits()` of the type of a value, as far as the construction of the
value fixes it: pointers have size 0, the runtime functions return 64 bit values except the two
memory functions, which return a status byte. -/
def Value.bits : Value → Nat
  | .const size _ => size
  | .vm_ptr => 0
  | .core_ptr => 0
  | .regs_ptr => 0
  | .ptr_to_int _ size => size
  | .int_to_ptr _ _ => 0
  | .load (.int_to_ptr _ size) => size
  | .load (.bitcast _ size) => size
  | .load (.alloca size _) => size
  | .load _ => 0
  | .add a _ => a.bits
  | .sub a _ => a.bits
  | .xor a _ => a.bits
  | .and a _ => a.bits
  | .or a _ => a.bits
  | .zext _ size => size
  | .trunc _ size => size
  | .get_reg _ _ => 64
  | .alloca _ _ => 0
  | .bitcast _ _ => 0
  | .result_of .read_mem _ => 8
  | .result_of .write_mem _ => 8
  | .result_of _ _ => 64
  | .icmp_ne _ _ => 1

/-- The number an operand tree computes, given by `env` the numbers of the values that are not
computed by arithmetic (loads, call results, arguments). Addition and subtraction wrap at the
width of their left operand. -/
def Value.eval (env : Value → Nat) : Value → Nat
  | .const _ v => v
  | .zext v _ => v.eval env
  | .trunc v size => v.eval env % 2 ^ size
  | .add a b => (a.eval env + b.eval env) % 2 ^ a.bits
  | .sub a b => (a.eval env + (2 ^ a.bits - b.eval env % 2 ^ a.bits)) % 2 ^ a.bits
  | .xor a b => a.eval env ^^^ b.eval env
  | .and a b => a.eval env &&& b.eval env
  | .or a b => a.eval env ||| b.eval env
  | .icmp_ne a b => if a.eval env ≠ b.eval env then 1 else 0
  | .vm_ptr => env .vm_ptr
  | .core_ptr => env .core_ptr
  | .regs_ptr => env .regs_ptr
  | .ptr_to_int v size => env (.ptr_to_int v size)
  | .int_to_ptr v size => env (.int_to_ptr v size)
  | .load p => env (.load p)
  | .get_reg c i => env (.get_reg c i)
  | .alloca b n => env (.alloca b n)
  | .bitcast v size => env (.bitcast v size)
  | .result_of fn n => env (.result_of fn n)

/-- The method `get_type(width)`: the width of the integer type it returns. `assert(width > 0)`
and `assert(!"Not supported yet")` abort unless the build defines NDEBUG, in which case the
method goes on and returns the 64 bit type for a width above 64. -/
def get_type (ndebug : Bool) (width : Nat) : Except Exn Nat :=
  if ¬ ndebug ∧ ¬ (width > 0) then .error .assertion_failed
  else if width < 2 then .ok 1
  else if width < 9 then .ok 8
  else if width < 17 then .ok 16
  else if width < 33 then .ok 32
  else if width < 65 then .ok 64
  else if ndebug then .ok 64
  else .error .assertion_failed

/-- The overload of `gen_const(size, val)` for a signed `val`: `APInt(size, val, true)`, the
two's complement of `val` in `size` bits. -/
def gen_const_signed (size : Nat) (val : Int) : Value :=
  .const size (val % 2 ^ size).toNat

/-- The creation of a two-operand integer instruction (`CreateSub`, `CreateXor`, `CreateAnd`,
`CreateOr`) by the IR builder: it takes two operands of the same type, and an assertion of the
builder fails for operands of different types. -/
def create_binop (op : Value → Value → Value) (a b : Value) : Except Exn Value :=
  if a.bits = b.bits then .ok (op a b) else .error .assertion_failed

/-- The call `CreateZExt(v, ty)` of the IR builder with `ty` an integer type of `ty` bits: a
value that has that type already is returned as it is, a narrower integer is extended, and
an assertion of the builder fails for anything else. -/
def create_zext (v : Value) (ty : Nat) : Except Exn Value :=
  if v.bits = ty then .ok v
  else if 0 < v.bits ∧ v.bits < ty then .ok (.zext v ty)
  else .error .assertion_failed

/-- The method `gen_cond_assign(cond, t, f)`: the operand tree it builds, or the failure of an
assertion of `get_type` or of the IR builder. The width
`f->getType()->getPrimitiveSizeInBits()` is `f.bits`. -/
def gen_cond_assign (ndebug : Bool) (cond t f : Value) : Except Exn Value :=
  match get_type ndebug f.bits with
  | .error e => .error e
  | .ok ty =>
    match create_zext cond ty with
    | .error e => .error e
    | .ok z =>
      match create_binop Value.sub z (gen_const_signed f.bits 1) with
      | .error e => .error e
      | .ok f_mask =>
        match create_binop Value.xor f_mask (gen_const_signed f_mask.bits (-1)) with
        | .error e => .error e
        | .ok t_mask =>
          match create_binop Value.and t t_mask with
          | .error e => .error e
          | .ok t_part =>
            match create_binop Value.and f f_mask with
            | .error e => .error e
            | .ok f_part => create_binop Value.or t_part f_part

/-- A test environment: the value read from register 0 is 1, from register 1 is 200, from
register 2 is 100, and every other value that is not computed by arithmetic is 0. -/
def demo_env_byte : Value → Nat
  | .get_reg _ (.const _ 0) => 1
  | .get_reg _ (.const _ 1) => 200
  | .get_reg _ (.const _ 2) => 100
  | _ => 0

/-- What the memory access generators use and vm_base.h only declares: the values of the two
options `LikelyBranchWeight` and `UnlikelyBranchWeight` (`llvm::cl::opt<uint32_t>`, set on the
command line) and the enumerator `iss::address_type::VIRTUAL`. -/
structure codegen_config where
  LikelyBranchWeight : Nat
  UnlikelyBranchWeight : Nat
  VIRTUAL : Nat

/-- The IR builder while a unit's code is generated: the block instructions are inserted into,
the handle the next `BasicBlock::Create` returns, and the instructions inserted so far. -/
structure builder where
  insert_point : Option Block
  next_block : Block
  body : List (Option Block × Inst)

/-- Insertion of one instruction at the insertion point. -/
def builder.insert (b : builder) (i : Inst) : builder :=
  { b with body := b.body ++ [(b.insert_point, i)] }

/-- The method `adj_to64(val)`. -/
def adj_to64 (val : Value) : Value :=
  if val.bits = 64 then val else .zext val 64

/-- The branch weights both memory access generators build: `Weights(2, UnlikelyBranchWeight)`
followed by `Weights[1] = LikelyBranchWeight`. -/
def mem_branch_weights (x : codegen_config) : List Nat :=
  (List.replicate 2 x.UnlikelyBranchWeight).set 1 x.LikelyBranchWeight

/-- The method `gen_read_mem(type, addr, length)` with `addr` a value: the builder it leaves
and the value it returns. `get_type(8)` is the 8 bit type and `get_type(length * 8)` the type
of that width for the lengths 1, 2, 4, 8. -/
def gen_read_mem (x : codegen_config) (b : builder) (type : Nat) (addr : Value) (length : Nat) :
    builder × Value :=
  let storage := Value.alloca (length * 8 % 2 ^ 32) b.body.length
  let storage_ptr := Value.bitcast storage 8
  let args : List Value :=
    [.core_ptr, .const 32 (x.VIRTUAL % 2 ^ 16), .const 32 (type % 2 ^ 32), adj_to64 addr,
      .const 32 (length % 2 ^ 32), storage_ptr]
  let call := Value.result_of .read_mem b.body.length
  let b1 := b.insert (.call .read_mem args)
  let icmp := Value.icmp_ne call (gen_const 8 0)
  let label_cont := b1.next_block
  let b2 : builder := { b1 with next_block := b1.next_block + 1 }
  let b3 := b2.insert (.cond_br icmp trap_blk label_cont (mem_branch_weights x))
  let b4 : builder := { b3 with insert_point := some label_cont }
  (b4,
    if length = 1 ∨ length = 2 ∨ length = 4 ∨ length = 8 then
      .load (.bitcast storage (length * 8))
    else storage_ptr)

/-- The method `gen_write_mem(type, addr, val)` with `addr` a value: the builder it leaves. -/
def gen_write_mem (x : codegen_config) (b : builder) (type : Nat) (addr val : Value) : builder :=
  let bitwidth := val.bits % 2 ^ 32
  let storage := Value.alloca bitwidth b.body.length
  let b0 := b.insert (.store val storage)
  let storage_ptr := Value.bitcast storage 8
  let args : List Value :=
    [.core_ptr, .const 32 (x.VIRTUAL % 2 ^ 16), .const 32 (type % 2 ^ 32), adj_to64 addr,
      .const 32 (bitwidth / 8), storage_ptr]
  let call := Value.result_of .write_mem b0.body.length
  let b1 := b0.insert (.call .write_mem args)
  let icmp := Value.icmp_ne call (gen_const 8 0)
  let label_cont := b1.next_block
  let b2 : builder := { b1 with next_block := b1.next_block + 1 }
  let b3 := b2.insert (.cond_br icmp trap_blk label_cont (mem_branch_weights x))
  { b3 with insert_point := some label_cont }

/-- The block a branch instruction transfers control to, for given values of the call results
and loads: a conditional branch takes its first target when its condition is not 0. -/
def Inst.target (env : Value → Nat) : Inst → Option Block
  | .br dest => some dest
  | .cond_br cond ifTrue ifFalse _ => some (if cond.eval env ≠ 0 then ifTrue else ifFalse)
  | _ => none

/-- The branch weights of a conditional branch as the pair (weight of the edge taken when the
condition holds, weight of the other edge). -/
def Inst.edge_weights : Inst → Option (Nat × Nat)
  | .cond_br _ _ _ [wt, wf] => some (wt, wf)
  | _ => none

/-- A configuration of the two weight options in which the trap path is given the larger
weight. -/
def demo_config_inverted : codegen_config :=
  { LikelyBranchWeight := 1, UnlikelyBranchWeight := 2000, VIRTUAL := 1 }

/-- A configuration of the two weight options with the larger weight on the likely path. -/
def demo_config : codegen_config :=
  { LikelyBranchWeight := 2000, UnlikelyBranchWeight := 1, VIRTUAL := 1 }

/-- A builder positioned in the entry block of a fresh unit. -/
def demo_builder : builder :=
  { insert_point := some entry_blk, next_block := 3, body := [] }

/-- The number an upper-case hexadecimal digit stands for (0 for any other character). -/
def hex_digit_value (c : Char) : Nat :=
  if '0' ≤ c ∧ c ≤ '9' then c.toNat - 48
  else if 'A' ≤ c ∧ c ≤ 'F' then c.toNat - 55
  else 0

/-- The number a sequence of hexadecimal digits denotes, most significant digit first. -/
def hex_value (cs : List Char) : Nat :=
  cs.foldl (fun acc c => 16 * acc + hex_digit_value c) 0

/-- The characters 0..9 and A..F. -/
def is_hex_upper (c : Char) : Bool :=
  decide (('0' ≤ c ∧ c ≤ '9') ∨ ('A' ≤ c ∧ c ≤ 'F'))

/-- The test architecture with the register PC holding `entry` when `start` is called. -/
def demo_arch_from (prog : Nat → demo_insn) (entry : Nat) : arch Nat :=
  { demo_arch prog with get_pc := fun _ => entry }

/-- A test program: a fetch fault at address 0; every other unit is one jump to 8 ending
with BRANCH. -/
def demo_prog_fault_zero : Nat → demo_insn :=
  fun pc => if pc = 0 then .fault 5 else .jump 8 .BRANCH

/-- The unit `disass` builds at address 8 for `demo_prog_fault_zero`: one jump to 8. -/
def demo_jump_unit : Function :=
  { name := GenerateUniqueName "block" 8,
    body := demo_vm.gen_leave_behavior
      ++ ((demo_vm.gen_sync .PRE_SYNC 0) ++ [demo_set_next_pc demo_vm 8, .br leave_blk]).map
          (fun i => (some entry_blk, i)) }

theorem gen_sync_pre_no_plugin_call (vm : vm_base) (s : sync_type) :
    (vm.gen_sync_pre s).filter (Inst.is_call .call_plugin) = [] := by
  unfold vm_base.gen_sync_pre
  by_cases hs : s = .PRE_SYNC <;> by_cases hd : vm.debugging_enabled = true <;>
    simp [hs, hd, Inst.is_call]

theorem gen_sync_plugins_filter (vm : vm_base) (s : sync_type) (inst_id : Nat)
    (es : List plugin_entry) :
    (vm.gen_sync_plugins s inst_id es).filter (Inst.is_call .call_plugin)
      = (es.filter (fun e => e.sync.val &&& s.val ≠ 0)).map (vm.plugin_call s inst_id) := by
  induction es with
  | nil => simp [vm_base.gen_sync_plugins]
  | cons e es ih =>
    by_cases h : e.sync.val &&& s.val = 0
    · simp [vm_base.gen_sync_plugins, h, ih]
    · simp [vm_base.gen_sync_plugins, h, ih, vm_base.plugin_call, Inst.is_call]

theorem gen_sync_plugins_all_plugin_calls (vm : vm_base) (s : sync_type) (inst_id : Nat)
    (es : List plugin_entry) :
    ∀ x ∈ vm.gen_sync_plugins s inst_id es, Inst.is_call .call_plugin x = true := by
  induction es with
  | nil => simp [vm_base.gen_sync_plugins]
  | cons e es ih =>
    intro x hx
    simp only [vm_base.gen_sync_plugins, List.mem_append] at hx
    rcases hx with hx | hx
    · by_cases h : e.sync.val &&& s.val = 0
      · simp [h] at hx
      · simp [h] at hx
        subst hx
        simp [vm_base.plugin_call, Inst.is_call]
    · exact ih x hx

theorem gen_sync_plugins_handles (vm : vm_base) (s : sync_type) (inst_id : Nat)
    (es : List plugin_entry) (h : Value) (hne : ∀ e ∈ es, e.plugin_ptr ≠ h) :
    ∀ x ∈ vm.gen_sync_plugins s inst_id es, Inst.is_plugin_call_of h x = false := by
  induction es with
  | nil => simp [vm_base.gen_sync_plugins]
  | cons e es ih =>
    intro x hx
    simp only [vm_base.gen_sync_plugins, List.mem_append] at hx
    rcases hx with hx | hx
    · by_cases hb : e.sync.val &&& s.val = 0
      · simp [hb] at hx
      · simp [hb] at hx
        subst hx
        have := hne e (List.mem_cons_self _ _)
        simp [vm_base.plugin_call, Inst.is_plugin_call_of, this]
    · exact ih (fun e' he' => hne e' (List.mem_cons_of_mem _ he')) x hx

theorem gen_sync_no_foreign_plugin_call (vm : vm_base) (s : sync_type) (inst_id : Nat) (h : Value)
    (hne : ∀ e ∈ vm.plugins, e.plugin_ptr ≠ h) :
    ∀ x ∈ vm.gen_sync s inst_id, Inst.is_plugin_call_of h x = false := by
  intro x hx
  simp only [vm_base.gen_sync, List.mem_append] at hx
  rcases hx with (hx | hx) | hx
  · have hall : ∀ y ∈ vm.gen_sync_pre s, Inst.is_plugin_call_of h y = false := by
      unfold vm_base.gen_sync_pre
      by_cases hs : s = .PRE_SYNC <;> by_cases hd : vm.debugging_enabled = true <;>
        simp [hs, hd, Inst.is_plugin_call_of]
    exact hall x hx
  · by_cases hb : s.val &&& vm.sync_exec.val = 0
    · simp [hb] at hx
    · simp [hb] at hx
      subst hx
      simp [Inst.is_plugin_call_of]
  · exact gen_sync_plugins_handles vm s inst_id vm.plugins h hne x hx

/-- Claim C8: a plugin whose handshake `registration("1.0", vm)` returns false leaves the plugin
list as it was, so `gen_sync` emits what it emitted before and, the plugin's handle not being
among the registered ones, no `call_plugin` for it; a plugin whose handshake returns true
adds exactly one entry at the end of the list, carrying the mask `get_sync()`, and no
existing entry changes. -/
theorem C8_register_plugin (vm : vm_base) (p : vm_plugin) :
    (p.registration "1.0" = false →
      (vm.register_plugin p).plugins = vm.plugins ∧
      (∀ s inst_id, (vm.register_plugin p).gen_sync s inst_id = vm.gen_sync s inst_id) ∧
      ((∀ e ∈ vm.plugins, e.plugin_ptr ≠ Value.const 64 (p.addr % 2 ^ 64)) →
        ∀ s inst_id, ∀ x ∈ (vm.register_plugin p).gen_sync s inst_id,
          Inst.is_plugin_call_of (Value.const 64 (p.addr % 2 ^ 64)) x = false)) ∧
    (p.registration "1.0" = true →
      (vm.register_plugin p).plugins
        = vm.plugins ++
          [{ sync := p.get_sync, plugin := p, plugin_ptr := Value.const 64 (p.addr % 2 ^ 64) }]) := by
  constructor
  · intro h
    have hvm : vm.register_plugin p = vm := by simp [vm_base.register_plugin, h]
    rw [hvm]
    exact ⟨rfl, fun _ _ => rfl,
      fun hne s inst_id =>
        gen_sync_no_foreign_plugin_call vm s inst_id _ hne⟩
  · intro h
    simp [vm_base.register_plugin, h]

/-- Witness of C8: a rejecting and an accepting plugin registered with a vm without plugins. -/
theorem C8_register_plugin_witness :
    (demo_vm.register_plugin { addr := 4096, registration := fun _ => false, get_sync := .ALL_SYNC }).plugins
        = [] ∧
      ((demo_vm.register_plugin
          { addr := 4096, registration := fun _ => true, get_sync := .POST_SYNC }).plugins.map
          (fun e => (e.sync, e.plugin_ptr)))
        = [(sync_type.POST_SYNC, Value.const 64 4096)] :=
  ⟨((C8_register_plugin demo_vm
        { addr := 4096, registration := fun _ => false, get_sync := .ALL_SYNC }).1 rfl).1,
    by
      rw [(C8_register_plugin demo_vm
        { addr := 4096, registration := fun _ => true, get_sync := .POST_SYNC }).2 rfl]
      rfl⟩

theorem gen_const_of_lt (size val : Nat) (h : val < 2 ^ size) :
    gen_const size val = .const size val := by
  unfold gen_const
  rw [Nat.mod_eq_of_lt h]

/-- Claim C9: `gen_sync(s, inst_id)` emits exactly one `call_plugin` for each registered plugin
whose mask shares a bit with `s` and none for the others, in registration order, each with the
arguments (plugin handle, core_id, cluster_id, s, inst_id) as 32 bit constants after the handle. -/
theorem C9_gen_sync_plugin_calls (vm : vm_base) (s : sync_type) (inst_id : Nat) :
    (vm.gen_sync s inst_id).filter (Inst.is_call .call_plugin)
      = (vm.plugins.filter (fun e => e.sync.val &&& s.val ≠ 0)).map
          (fun e => Inst.call .call_plugin
            [e.plugin_ptr, gen_const 32 vm.core_id, gen_const 32 vm.cluster_id,
              gen_const 32 s.val, gen_const 32 inst_id]) := by
  have h := gen_sync_plugins_filter vm s inst_id vm.plugins
  unfold vm_base.gen_sync
  rw [List.filter_append, List.filter_append, gen_sync_pre_no_plugin_call, h]
  by_cases hb : s.val &&& vm.sync_exec.val = 0
  · simp [hb]
    intro a _ _
    rfl
  · simp [hb, Inst.is_call]
    intro a _ _
    rfl

theorem run_unit_error_trace {W : Type} (a : arch W) (s s1 : driver_state W) (pc_p : Nat)
    (f : Function) (e : Exn) (h : run_unit a s pc_p f = (s1, .error e)) :
    s1.trace = s.trace ++ [.invoked pc_p] ∧ s1.jitHelper = s.jitHelper := by
  unfold run_unit at h
  cases hr : (a.call_unit f s.core).2 with
  | error e1 =>
    simp [hr] at h
    rw [← h.1]
    exact ⟨rfl, rfl⟩
  | ok next => simp [hr] at h

theorem try_block_error_trace {W : Type} (a : arch W) (s s1 : driver_state W) (e : Exn)
    (h : try_block a s = (s1, .error e)) :
    (∃ evs : List Event, s1.trace = s.trace ++ evs ∧ ∀ x ∈ evs, x.keeps_cache = true) ∧
    (s1.jitHelper = s.jitHelper ∨
      ∃ (pc_p : Nat) (func : Function),
        s1.jitHelper = s.jitHelper.register s.vm.cluster_id pc_p func) := by
  unfold try_block at h
  cases hv : a.v2p s.core s.pc with
  | error e1 =>
    simp [hv] at h
    exact ⟨⟨[], by rw [← h.1]; simp, by simp⟩, Or.inl (by rw [← h.1])⟩
  | ok pc_p =>
    simp only [hv] at h
    cases hl : s.jitHelper.lookup s.vm.cluster_id pc_p with
    | some f =>
      simp only [hl] at h
      have hr := run_unit_error_trace a s s1 pc_p f e h
      exact ⟨⟨[.invoked pc_p], hr.1, by simp [Event.keeps_cache]⟩, Or.inl hr.2⟩
    | none =>
      simp only [hl] at h
      cases hd : (disass a s.vm s.core s.processing_pc s.pc).result with
      | error e1 =>
        simp [hd] at h
        exact ⟨⟨[], by rw [← h.1]; simp, by simp⟩, Or.inl (by rw [← h.1])⟩
      | ok cf =>
        obtain ⟨c, func⟩ := cf
        simp only [hd] at h
        have hr := run_unit_error_trace a _ s1 pc_p func e h
        exact ⟨⟨[.built pc_p c, .invoked pc_p], by rw [hr.1]; simp, by simp [Event.keeps_cache]⟩,
          Or.inr ⟨pc_p, func, hr.2⟩⟩

theorem loop_body_of_trap {W : Type} (a : arch W) (s s1 : driver_state W) (id addr : Nat)
    (h : try_block a s = (s1, .error (.trap_access id addr))) :
    loop_body a s
      = ({ s1 with
            core := (a.enter_trap s1.core id addr).1,
            pc := (a.enter_trap s1.core id addr).2,
            trace := s1.trace ++ [.enter_trap id addr] }, .ok ()) := by
  unfold loop_body
  rw [h]

theorem loop_body_never_trap {W : Type} (a : arch W) (s : driver_state W) (id addr : Nat) :
    (loop_body a s).2 ≠ .error (.trap_access id addr) := by
  unfold loop_body
  rcases hb : try_block a s with ⟨s1, r⟩
  cases r with
  | ok u => simp
  | error e => cases e <;> simp

/-- Claim C6: when the inner try block of an iteration of `start` raises trap_access(id, addr),
from `v2p`, from building the unit or from the compiled unit, the iteration ends normally
(the loop goes on to its next condition check), the calls made in the iteration include no
flush_entries and no remove_entry, the cache is the one the iteration found or that cache
with the unit just built registered, and the next iteration's program counter is
`core.enter_trap(id, addr)`. -/
theorem C6_trap_access_resumes {W : Type} (a : arch W) (s s1 : driver_state W) (id addr : Nat)
    (h : try_block a s = (s1, .error (.trap_access id addr))) :
    (loop_body a s).2 = .ok () ∧
    (loop_body a s).1.pc = (a.enter_trap s1.core id addr).2 ∧
    ((loop_body a s).1.jitHelper = s.jitHelper ∨
      ∃ (pc_p : Nat) (func : Function),
        (loop_body a s).1.jitHelper = s.jitHelper.register s.vm.cluster_id pc_p func) ∧
    (∃ evs : List Event,
      (loop_body a s).1.trace = s.trace ++ evs ++ [.enter_trap id addr] ∧
      ∀ x ∈ evs, x.keeps_cache = true) ∧
    (∀ (icount : Int) (n : Nat), (icount < 0 ∨ to_int64 (a.get_icount s.core) < icount) →
      start_loop a icount (n + 1) s = start_loop a icount n (loop_body a s).1) := by
  have hb := loop_body_of_trap a s s1 id addr h
  obtain ⟨⟨evs, htr, hk⟩, hcache⟩ := try_block_error_trace a s s1 _ h
  refine ⟨by rw [hb], by rw [hb], by rw [hb]; exact hcache,
    ⟨evs, by rw [hb]; simp [htr], hk⟩, ?_⟩
  intro icount n hc
  conv_lhs => unfold start_loop
  rw [if_pos hc, hb]

/-- Witness of C6: the first instruction at address 8 raises a fetch fault while its unit is
built; the driver continues at the trap vector 64. -/
theorem C6_trap_access_resumes_witness :
    (loop_body (demo_arch (fun _ => .fault 5)) { demo_state with pc := 8 }).2 = .ok () ∧
    (loop_body (demo_arch (fun _ => .fault 5)) { demo_state with pc := 8 }).1.pc = 64 :=
  have h := C6_trap_access_resumes (demo_arch (fun _ => .fault 5)) { demo_state with pc := 8 }
    { demo_state with pc := 8 } 5 8 rfl
  ⟨h.1, h.2.1⟩

theorem start_loop_never_trap {W : Type} (a : arch W) (icount : Int) (id addr : Nat) :
    ∀ (n : Nat) (s : driver_state W), (start_loop a icount n s).1 ≠ .thrown (.trap_access id addr) := by
  intro n
  induction n with
  | zero => intro s; simp [start_loop]
  | succ n ih =>
    intro s
    unfold start_loop
    by_cases hc : icount < 0 ∨ to_int64 (a.get_icount s.core) < icount
    · rw [if_pos hc]
      have hne := loop_body_never_trap a s id addr
      cases hb : loop_body a s with
      | mk s1 r =>
        cases r with
        | ok u => exact ih s1
        | error e =>
          rw [hb] at hne
          simp only
          intro h
          apply hne
          simp only [loop_end.thrown.injEq] at h
          rw [h]
    · rw [if_neg hc]
      simp

/-- Claim C7: the value `start` returns is fixed by the way its loop ended: 0 when the
instruction budget is exhausted, 0 for simulation_stopped with state 1 and the state for any
other state, -1 for decoding_error; it returns no other value, and an exception that leaves
`start` is neither simulation_stopped nor decoding_error (nor trap_access). -/
theorem C7_start_return_value {W : Type} (a : arch W) (steps : Nat) (icount : Int)
    (s : driver_state W) :
    ((start_loop a icount steps (start_init a s)).1 = .limit_reached →
      (start a steps icount s).1 = .returned 0) ∧
    (∀ state : Int,
      (start_loop a icount steps (start_init a s)).1 = .thrown (.simulation_stopped state) →
      (start a steps icount s).1 = .returned (if state = 1 then 0 else state)) ∧
    (∀ addr : Nat,
      (start_loop a icount steps (start_init a s)).1 = .thrown (.decoding_error addr) →
      (start a steps icount s).1 = .returned (-1)) ∧
    (∀ v : Int, (start a steps icount s).1 = .returned v →
      (v = 0 ∧ (start_loop a icount steps (start_init a s)).1 = .limit_reached) ∨
      (∃ state : Int,
        (start_loop a icount steps (start_init a s)).1 = .thrown (.simulation_stopped state) ∧
        v = (if state = 1 then 0 else state)) ∨
      (v = -1 ∧ ∃ addr : Nat,
        (start_loop a icount steps (start_init a s)).1 = .thrown (.decoding_error addr))) ∧
    (∀ e : Exn, (start a steps icount s).1 = .propagated e → e = .assertion_failed) := by
  have hnt := fun id addr => start_loop_never_trap a icount id addr steps (start_init a s)
  unfold start
  simp only
  cases he : (start_loop a icount steps (start_init a s)).1 with
  | limit_reached => simp [start_status]
  | out_of_steps => simp [start_status]
  | thrown e =>
    cases e with
    | trap_access id addr => exact absurd he (hnt id addr)
    | simulation_stopped state =>
      by_cases h1 : state = 1 <;> simp [start_status, h1]
    | decoding_error addr => simp [start_status]
    | assertion_failed => simp [start_status]

/-- Witness of C7: a run that exhausts a budget of one instruction returns 0, a stop with
state 1 returns 0, a stop with state 7 returns 7, an undecodable instruction returns -1. -/
theorem C7_start_return_value_witness :
    (start (demo_arch demo_prog_pair) 5 1 demo_state).1 = .returned 0 ∧
    (start (demo_arch (fun _ => .stop 1)) 5 1 demo_state).1 = .returned 0 ∧
    (start (demo_arch (fun _ => .stop 7)) 5 1 demo_state).1 = .returned 7 ∧
    (start (demo_arch (fun _ => .illegal)) 5 1 demo_state).1 = .returned (-1) :=
  ⟨(C7_start_return_value (demo_arch demo_prog_pair) 5 1 demo_state).1 (by decide),
    (C7_start_return_value (demo_arch (fun _ => .stop 1)) 5 1 demo_state).2.1 1 (by decide),
    (C7_start_return_value (demo_arch (fun _ => .stop 7)) 5 1 demo_state).2.1 7 (by decide),
    (C7_start_return_value (demo_arch (fun _ => .illegal)) 5 1 demo_state).2.2.1 0 (by decide)⟩

/-- Claim C5, evaluated where the code departs from it: the unit at address 0 is built with
outcome BRANCH and the unit at 100 with outcome TRAP; in the third iteration the unit at 0 is
served from the cache, `cont` still holds TRAP from the build of the other unit, and the
driver calls remove_entry for the unit at 0 that just ran. -/
theorem C5_stale_outcome_on_cached_unit :
    (disass (demo_arch demo_prog_evict) demo_vm 0 [] 0).result.toOption.map Prod.fst
      = some continuation_e.BRANCH ∧
    (start_loop (demo_arch demo_prog_evict) (-1) 2 (start_init (demo_arch demo_prog_evict) demo_state)).2.trace
      = [.built 0 .BRANCH, .invoked 0, .built 100 .TRAP, .invoked 100, .remove_entry 0 100] ∧
    ((start_loop (demo_arch demo_prog_evict) (-1) 2
        (start_init (demo_arch demo_prog_evict) demo_state)).2.jitHelper.lookup 0 0).isSome = true ∧
    (start_loop (demo_arch demo_prog_evict) (-1) 3 (start_init (demo_arch demo_prog_evict) demo_state)).2.trace
      = [.built 0 .BRANCH, .invoked 0, .built 100 .TRAP, .invoked 100, .remove_entry 0 100,
          .invoked 0, .remove_entry 0 0] := by
  refine ⟨?_, ?_, ?_, ?_⟩ <;> decide

/-! ## The translation unit builder -/

theorem disass_loop_all_cont {W : Type} (a : arch W) (vm : vm_base) (stack : List (Nat × Nat))
    (hgen : ∀ (core : W) (pc_v inst_cnt : Nat) (bb : Option Block),
      ∃ b, (a.gen_single_inst_behavior vm stack core pc_v inst_cnt bb).result = .ok (.CONT, b)) :
    ∀ (n : Nat) (s : disass_state W), s.cont = .CONT → s.cur_blk + n ≤ blk_size →
      (disass_loop a vm stack n s).1.invocations = s.invocations + n ∧
      (disass_loop a vm stack n s).2 = none := by
  intro n
  induction n with
  | zero => intro s _ _; simp [disass_loop]
  | succ n ih =>
    intro s hc hb
    unfold disass_loop
    have hcond : s.cont = .CONT ∧ s.cur_blk < blk_size := ⟨hc, by omega⟩
    rw [if_pos hcond]
    obtain ⟨b, hr⟩ := hgen s.core s.cur_pc s.num_inst s.bb
    simp only [hr]
    have := ih
      { core := (a.gen_single_inst_behavior vm stack s.core s.cur_pc s.num_inst s.bb).core,
        cur_pc := (a.gen_single_inst_behavior vm stack s.core s.cur_pc s.num_inst s.bb).pc_v,
        num_inst := (a.gen_single_inst_behavior vm stack s.core s.cur_pc s.num_inst s.bb).inst_cnt,
        cur_blk := s.cur_blk + 1, cont := .CONT, bb := b,
        body := s.body ++ (a.gen_single_inst_behavior vm stack s.core s.cur_pc s.num_inst s.bb).emitted,
        invocations := s.invocations + 1 } rfl (by simp only; omega)
    simp only at this
    refine ⟨by rw [this.1]; omega, this.2⟩

theorem disass_loop_exit {W : Type} (a : arch W) (vm : vm_base) (stack : List (Nat × Nat)) :
    ∀ (n : Nat) (s : disass_state W), blk_size ≤ s.cur_blk + n →
      (disass_loop a vm stack n s).2 = none →
      ¬ ((disass_loop a vm stack n s).1.cont = .CONT ∧
          (disass_loop a vm stack n s).1.cur_blk < blk_size) := by
  intro n
  induction n with
  | zero =>
    intro s hb _
    simp only [disass_loop]
    omega
  | succ n ih =>
    intro s hb hnone
    unfold disass_loop at hnone ⊢
    by_cases hc : s.cont = .CONT ∧ s.cur_blk < blk_size
    · rw [if_pos hc] at hnone ⊢
      cases hr : (a.gen_single_inst_behavior vm stack s.core s.cur_pc s.num_inst s.bb).result with
      | error e => simp [hr] at hnone
      | ok cb =>
        obtain ⟨c, b⟩ := cb
        simp only [hr] at hnone ⊢
        exact ih _ (by simp only; omega) hnone
    · rw [if_neg hc]
      exact hc

theorem disass_loop_after_cont {W : Type} (a : arch W) (vm : vm_base) (stack : List (Nat × Nat))
    (m : Nat) :
    ∀ (n : Nat) (s s' : disass_state W), s.cont = .CONT → s.cur_blk + n ≤ blk_size →
      after_cont_invocations a vm stack n s = some s' →
      disass_loop a vm stack (n + m) s = disass_loop a vm stack m s' ∧
      s'.cont = .CONT ∧ s'.cur_blk = s.cur_blk + n ∧ s.cur_pc ≤ s'.cur_pc ∧
      (0 < n → s.cur_pc < s'.cur_pc) ∧ s'.invocations = s.invocations + n := by
  intro n
  induction n with
  | zero =>
    intro s s' hc _ h
    simp only [after_cont_invocations, Option.some.injEq] at h
    subst h
    simp [hc]
  | succ n ih =>
    intro s s' hc hb h
    unfold after_cont_invocations at h
    simp only at h
    cases hr : (a.gen_single_inst_behavior vm stack s.core s.cur_pc s.num_inst s.bb).result with
    | error e => simp [hr] at h
    | ok cb =>
      obtain ⟨c, b⟩ := cb
      cases c
      case BRANCH => simp [hr] at h
      case FLUSH => simp [hr] at h
      case TRAP => simp [hr] at h
      simp only [hr] at h
      by_cases hp : s.cur_pc < (a.gen_single_inst_behavior vm stack s.core s.cur_pc s.num_inst s.bb).pc_v ∧
          (a.gen_single_inst_behavior vm stack s.core s.cur_pc s.num_inst s.bb).pc_v < 2 ^ 64
      · rw [if_pos hp] at h
        have := ih _ s' rfl (by simp only; omega) h
        obtain ⟨h1, h2, h3, h4, _, h6⟩ := this
        simp only at h3 h4 h6
        refine ⟨?_, h2, by omega, by omega, fun _ => by omega, by omega⟩
        rw [Nat.add_right_comm]
        conv_lhs => unfold disass_loop
        rw [if_pos ⟨hc, by omega⟩]
        simp only [hr]
        exact h1
      · rw [if_neg hp] at h
        exact absurd h (by simp)

/-- Claim C3, amended: if the first k-1 calls of `gen_single_inst_behavior` return CONT, each
advancing the virtual address without wrap-around, the k-th call raises trap_access without
moving the address backwards, and `v2p` of the address before the one the k-th call left
succeeds, then `disass` returns normally, with outcome CONT, a unit whose code is that of
instructions 1..k-1, followed by what the k-th call inserted before it raised, followed by
one branch to the leave block; so the unit has nothing of the k-th instruction exactly when
that call raised before inserting anything. -/
theorem C3_trap_truncated_unit {W : Type} (a : arch W) (vm : vm_base) (core : W)
    (stack : List (Nat × Nat)) (pc pc_p k : Nat) (s : disass_state W) (id addr pa : Nat)
    (hk : 1 < k) (hkb : k ≤ blk_size)
    (hv : a.v2p core pc = .ok pc_p)
    (hrun : after_cont_invocations a vm ((pc, pc_p) :: stack) (k - 1) (disass_init a vm core pc)
      = some s)
    (hraise : (a.gen_single_inst_behavior vm ((pc, pc_p) :: stack) s.core s.cur_pc s.num_inst
      s.bb).result = .error (.trap_access id addr))
    (hpc : s.cur_pc ≤ (a.gen_single_inst_behavior vm ((pc, pc_p) :: stack) s.core s.cur_pc
        s.num_inst s.bb).pc_v ∧
      (a.gen_single_inst_behavior vm ((pc, pc_p) :: stack) s.core s.cur_pc s.num_inst s.bb).pc_v
        < 2 ^ 64)
    (hend : a.v2p
      (a.gen_single_inst_behavior vm ((pc, pc_p) :: stack) s.core s.cur_pc s.num_inst s.bb).core
      (dec64 (a.gen_single_inst_behavior vm ((pc, pc_p) :: stack) s.core s.cur_pc s.num_inst
        s.bb).pc_v) = .ok pa) :
    (disass a vm core stack pc).result
      = .ok (.CONT,
          { name := GenerateUniqueName "block" pc_p,
            body := s.body
              ++ (a.gen_single_inst_behavior vm ((pc, pc_p) :: stack) s.core s.cur_pc s.num_inst
                    s.bb).emitted
              ++ [(s.bb, .br leave_blk)] }) ∧
    (disass a vm core stack pc).invocations = k ∧
    (disass a vm core stack pc).processing_pc = stack := by
  obtain ⟨h1, h2, h3, h4, h5, h6⟩ := disass_loop_after_cont a vm ((pc, pc_p) :: stack)
    (blk_size - (k - 1)) (k - 1) (disass_init a vm core pc) s rfl
    (by simp only [disass_init]; omega) hrun
  have hfuel : k - 1 + (blk_size - (k - 1)) = blk_size := by omega
  rw [hfuel] at h1
  have hm : blk_size - (k - 1) = (blk_size - k) + 1 := by omega
  have hlt : pc < s.cur_pc := by
    have := h5 (by omega)
    simpa [disass_init] using this
  have hloop : disass_loop a vm ((pc, pc_p) :: stack) blk_size (disass_init a vm core pc)
      = ({ s with
            core := (a.gen_single_inst_behavior vm ((pc, pc_p) :: stack) s.core s.cur_pc
              s.num_inst s.bb).core,
            cur_pc := (a.gen_single_inst_behavior vm ((pc, pc_p) :: stack) s.core s.cur_pc
              s.num_inst s.bb).pc_v,
            num_inst := (a.gen_single_inst_behavior vm ((pc, pc_p) :: stack) s.core s.cur_pc
              s.num_inst s.bb).inst_cnt,
            body := s.body ++ (a.gen_single_inst_behavior vm ((pc, pc_p) :: stack) s.core
              s.cur_pc s.num_inst s.bb).emitted,
            invocations := s.invocations + 1 }, some (.trap_access id addr)) := by
    rw [h1, hm]
    conv_lhs => unfold disass_loop
    rw [if_pos ⟨h2, by simp only [disass_init] at h3; omega⟩]
    simp only [hraise]
  have hdec : pc ≤ dec64 (a.gen_single_inst_behavior vm ((pc, pc_p) :: stack) s.core s.cur_pc
      s.num_inst s.bb).pc_v := by
    unfold dec64
    omega
  have hinv : s.invocations + 1 = k := by
    simp only [disass_init] at h6
    omega
  unfold disass
  rw [hv]
  simp only [hloop]
  unfold disass_catch
  simp only [hend, hdec, if_true, h2]
  exact ⟨trivial, hinv, trivial⟩

/-- Witness of C3: a unit at address 0 whose second instruction raises a fetch fault ends
after the first instruction with one branch to the leave block. -/
theorem C3_trap_truncated_unit_witness :
    (disass (demo_arch demo_prog_fetch_fault) demo_vm 0 [] 0).result
      = .ok (.CONT,
          { name := GenerateUniqueName "block" 0,
            body := demo_after_plain.body ++ [] ++ [(some entry_blk, .br leave_blk)] }) ∧
    (disass (demo_arch demo_prog_fetch_fault) demo_vm 0 [] 0).invocations = 2 ∧
    (disass (demo_arch demo_prog_fetch_fault) demo_vm 0 [] 0).processing_pc = [] :=
  C3_trap_truncated_unit (demo_arch demo_prog_fetch_fault) demo_vm 0 [] 0 0 2 demo_after_plain
    5 4 3 (by decide) (by decide) rfl rfl rfl (by decide) rfl

/-- Counterexample to C3 as stated: the first instruction of the unit at address 0 is
translated with outcome CONT and advances the address from 0 to 4; the generator of the second
inserts its synchronisation code and then raises trap_access. `disass` returns a unit, but its
code is not that of instruction 1 followed by a branch: it holds the ICOUNT increment of the
second instruction as well. -/
theorem C3_counterexample :
    after_cont_invocations (demo_arch demo_prog_late) demo_vm [(0, 0)] 1
        (disass_init (demo_arch demo_prog_late) demo_vm 0 0) = some demo_after_plain ∧
    ((demo_arch demo_prog_late).gen_single_inst_behavior demo_vm [(0, 0)] demo_after_plain.core
        demo_after_plain.cur_pc demo_after_plain.num_inst demo_after_plain.bb).result
      = .error (.trap_access 5 4) ∧
    (disass (demo_arch demo_prog_late) demo_vm 0 [] 0).result.toOption.map (fun r => r.2.body)
      ≠ some (demo_after_plain.body ++ [(demo_after_plain.bb, .br leave_blk)]) ∧
    (disass (demo_arch demo_prog_late) demo_vm 0 [] 0).result.toOption.map
        (fun r => r.2.body.countP (fun x => x.2 = demo_icount_store)) = some 2 := by
  refine ⟨rfl, rfl, ?_, ?_⟩ <;> decide

/-- Claim C2, evaluated where the code departs from it: at start address 0 the first call of
`gen_single_inst_behavior` raises trap_access before it has translated anything; the handler
computes `--cur_pc` = 2 ^ 64 - 1, finds the start address not above it, and returns a unit
without a translated instruction instead of raising. At start address 4 the same generator
makes `disass` raise the trap. -/
theorem C2_first_instruction_trap_at_zero :
    ((demo_arch (fun _ => .fault 5)).gen_single_inst_behavior demo_vm [(0, 0)] 0 0 0
        (some entry_blk)).result = .error (.trap_access 5 0) ∧
    (disass (demo_arch (fun _ => .fault 5)) demo_vm 0 [] 0).result
      = .ok (.CONT,
          { name := GenerateUniqueName "block" 0,
            body := [(some leave_blk, .ret (gen_get_reg demo_traits 1)),
              (some entry_blk, .br leave_blk)] }) ∧
    (disass (demo_arch (fun _ => .fault 5)) demo_vm 0 [] 0).invocations = 1 ∧
    (disass (demo_arch (fun _ => .fault 5)) demo_vm 0 [] 4).result = .error (.trap_access 5 4) :=
  ⟨rfl, rfl, rfl, rfl⟩

/-! ## The instruction budget of the driver -/

theorem disass_loop_icount {W : Type} (a : arch W) (vm : vm_base) (stack : List (Nat × Nat))
    (hgen : ∀ (v : vm_base) (stk : List (Nat × Nat)) (w : W) (pc_v inst_cnt : Nat)
      (bb : Option Block),
      a.get_icount (a.gen_single_inst_behavior v stk w pc_v inst_cnt bb).core = a.get_icount w) :
    ∀ (n : Nat) (s : disass_state W),
      a.get_icount (disass_loop a vm stack n s).1.core = a.get_icount s.core := by
  intro n
  induction n with
  | zero => intro s; rfl
  | succ n ih =>
    intro s
    unfold disass_loop
    by_cases hc : s.cont = .CONT ∧ s.cur_blk < blk_size
    · rw [if_pos hc]
      simp only
      cases hr : (a.gen_single_inst_behavior vm stack s.core s.cur_pc s.num_inst s.bb).result with
      | error e => exact hgen vm stack s.core s.cur_pc s.num_inst s.bb
      | ok cb =>
        obtain ⟨c, b⟩ := cb
        simp only
        rw [ih]
        exact hgen vm stack s.core s.cur_pc s.num_inst s.bb
    · rw [if_neg hc]

theorem disass_icount {W : Type} (a : arch W) (vm : vm_base) (core : W) (stack : List (Nat × Nat))
    (pc : Nat)
    (hgen : ∀ (v : vm_base) (stk : List (Nat × Nat)) (w : W) (pc_v inst_cnt : Nat)
      (bb : Option Block),
      a.get_icount (a.gen_single_inst_behavior v stk w pc_v inst_cnt bb).core = a.get_icount w) :
    a.get_icount (disass a vm core stack pc).core = a.get_icount core := by
  unfold disass
  cases hv : a.v2p core pc with
  | error e => rfl
  | ok pc_p =>
    simp only
    exact disass_loop_icount a vm _ hgen blk_size (disass_init a vm core pc)

theorem run_unit_trace {W : Type} (a : arch W) (s : driver_state W) (pc_p : Nat) (f : Function) :
    (run_unit a s pc_p f).1.core = (a.call_unit f s.core).1 ∧
    (run_unit a s pc_p f).1.vm = s.vm ∧
    (∀ e ∈ (run_unit a s pc_p f).1.jitHelper.entries, e ∈ s.jitHelper.entries) ∧
    ∃ evs : List Event, (run_unit a s pc_p f).1.trace = s.trace ++ evs ∧
      ∀ id addr, Event.enter_trap id addr ∉ evs := by
  unfold run_unit
  dsimp only
  split
  · exact ⟨rfl, rfl, fun _ h => h, [.invoked pc_p], rfl, by simp⟩
  · by_cases h1 : s.cont = .FLUSH
    · have h2 : ¬ (continuation_e.FLUSH = continuation_e.TRAP) := by decide
      simp only [h1, h2, if_true, if_false]
      refine ⟨trivial, trivial, ?_, [.invoked pc_p, .flush_entries s.vm.cluster_id], by simp, by simp⟩
      intro e he
      exact (List.mem_filter.mp he).1
    · by_cases h2 : s.cont = .TRAP
      · have h3 : ¬ (continuation_e.TRAP = continuation_e.FLUSH) := by decide
        simp only [h2, h3, if_true, if_false]
        refine ⟨trivial, trivial, ?_, [.invoked pc_p, .remove_entry s.vm.cluster_id pc_p], by simp,
          by simp⟩
        intro e he
        exact (List.mem_filter.mp he).1
      · simp only [h1, h2, if_false]
        exact ⟨trivial, trivial, fun _ h => h, [.invoked pc_p], by simp, by simp⟩

theorem lookup_mem (c : translation_cache) (cluster pc_p : Nat) (f : Function)
    (h : c.lookup cluster pc_p = some f) : ∃ e ∈ c.entries, e.2 = f := by
  unfold translation_cache.lookup at h
  cases hf : c.entries.find? (fun e => e.1 = (cluster, pc_p)) with
  | none => simp [hf] at h
  | some e =>
    simp only [hf, Option.some.injEq] at h
    exact ⟨e, List.mem_of_find?_eq_some hf, h⟩

theorem try_block_trace {W : Type} (a : arch W) (s : driver_state W) :
    ∃ evs : List Event, (try_block a s).1.trace = s.trace ++ evs := by
  unfold try_block
  cases hv : a.v2p s.core s.pc with
  | error e => exact ⟨[], by simp⟩
  | ok pc_p =>
    dsimp only
    cases hl : s.jitHelper.lookup s.vm.cluster_id pc_p with
    | some f =>
      dsimp only
      obtain ⟨_, _, _, evs, htr, _⟩ := run_unit_trace a s pc_p f
      exact ⟨evs, htr⟩
    | none =>
      dsimp only
      cases hres : (disass a s.vm s.core s.processing_pc s.pc).result with
      | error e => exact ⟨[], by simp⟩
      | ok cf =>
        obtain ⟨c, func⟩ := cf
        dsimp only
        obtain ⟨_, _, _, evs, htr, _⟩ := run_unit_trace a
          { s with
            core := (disass a s.vm s.core s.processing_pc s.pc).core,
            processing_pc := (disass a s.vm s.core s.processing_pc s.pc).processing_pc,
            cont := c,
            jitHelper := s.jitHelper.register s.vm.cluster_id pc_p func,
            trace := s.trace ++ [.built pc_p c] } pc_p func
        exact ⟨.built pc_p c :: evs, by rw [htr]; simp⟩

theorem loop_body_trace {W : Type} (a : arch W) (s : driver_state W) :
    ∃ evs : List Event, (loop_body a s).1.trace = s.trace ++ evs := by
  obtain ⟨evs, htr⟩ := try_block_trace a s
  unfold loop_body
  rcases hb : try_block a s with ⟨s1, r⟩
  rw [hb] at htr
  cases r with
  | ok u => exact ⟨evs, htr⟩
  | error e =>
    cases e with
    | trap_access id addr =>
      refine ⟨evs ++ [.enter_trap id addr], ?_⟩
      simp only at htr ⊢
      rw [htr, List.append_assoc]
    | simulation_stopped st => exact ⟨evs, htr⟩
    | decoding_error ad => exact ⟨evs, htr⟩
    | assertion_failed => exact ⟨evs, htr⟩

theorem start_loop_trace {W : Type} (a : arch W) (icount : Int) :
    ∀ (n : Nat) (s : driver_state W),
      ∃ evs : List Event, (start_loop a icount n s).2.trace = s.trace ++ evs := by
  intro n
  induction n with
  | zero => intro s; exact ⟨[], by simp [start_loop]⟩
  | succ n ih =>
    intro s
    unfold start_loop
    by_cases hc : icount < 0 ∨ to_int64 (a.get_icount s.core) < icount
    · rw [if_pos hc]
      obtain ⟨evs1, h1⟩ := loop_body_trace a s
      rcases hb : loop_body a s with ⟨s1, r⟩
      rw [hb] at h1
      cases r with
      | ok u =>
        obtain ⟨evs2, h2⟩ := ih s1
        exact ⟨evs1 ++ evs2, by simp only; rw [h2, h1, List.append_assoc]⟩
      | error e => exact ⟨evs1, h1⟩
    · rw [if_neg hc]
      exact ⟨[], by simp⟩

theorem try_block_count {W : Type} (a : arch W) (s : driver_state W)
    (hunit : ∀ f : Function, invoked_unit a s = some f →
      ∃ n : Nat, 1 ≤ n ∧ n ≤ blk_size ∧
        a.get_icount (a.call_unit f (translated_core a s)).1
          = (a.get_icount (translated_core a s) + n) % 2 ^ 64)
    (htrans : a.get_icount (translated_core a s) = a.get_icount s.core) :
    a.get_icount (try_block a s).1.core = a.get_icount s.core ∨
      ∃ n : Nat, 1 ≤ n ∧ n ≤ blk_size ∧
        a.get_icount (try_block a s).1.core = (a.get_icount s.core + n) % 2 ^ 64 := by
  unfold try_block
  unfold invoked_unit at hunit
  unfold translated_core at hunit htrans
  cases hv : a.v2p s.core s.pc with
  | error e => exact Or.inl rfl
  | ok pc_p =>
    rw [hv] at hunit htrans
    dsimp only at hunit htrans ⊢
    cases hl : s.jitHelper.lookup s.vm.cluster_id pc_p with
    | some f =>
      rw [hl] at hunit
      dsimp only at hunit ⊢
      obtain ⟨n, h1, h2, h3⟩ := hunit f rfl
      refine Or.inr ⟨n, h1, h2, ?_⟩
      rw [(run_unit_trace a s pc_p f).1]
      exact h3
    | none =>
      rw [hl] at hunit htrans
      dsimp only at hunit htrans ⊢
      cases hres : (disass a s.vm s.core s.processing_pc s.pc).result with
      | error e => exact Or.inl htrans
      | ok cf =>
        obtain ⟨c, func⟩ := cf
        rw [hres] at hunit
        dsimp only at hunit ⊢
        obtain ⟨n, h1, h2, h3⟩ := hunit func rfl
        refine Or.inr ⟨n, h1, h2, ?_⟩
        rw [(run_unit_trace a _ pc_p func).1]
        dsimp only
        rw [h3, htrans]

theorem loop_body_cases {W : Type} (a : arch W) (s : driver_state W) :
    ∃ evs : List Event, (loop_body a s).1.trace = s.trace ++ evs ∧
      ((∃ id addr, Event.enter_trap id addr ∈ evs) ∨
        (loop_body a s).1.core = (try_block a s).1.core) := by
  obtain ⟨evs, htr⟩ := try_block_trace a s
  unfold loop_body
  rcases hb : try_block a s with ⟨s1, r⟩
  rw [hb] at htr
  cases r with
  | ok u => exact ⟨evs, htr, Or.inr rfl⟩
  | error e =>
    cases e with
    | trap_access id addr =>
      refine ⟨evs ++ [.enter_trap id addr], ?_, Or.inl ⟨id, addr, by simp⟩⟩
      simp only at htr ⊢
      rw [htr, List.append_assoc]
    | simulation_stopped st => exact ⟨evs, htr, Or.inr rfl⟩
    | decoding_error ad => exact ⟨evs, htr, Or.inr rfl⟩
    | assertion_failed => exact ⟨evs, htr, Or.inr rfl⟩

theorem start_loop_bound {W : Type} (a : arch W) (icount : Int) (B : Nat)
    (hN : 0 ≤ icount) (hB : B < 2 ^ 63) (hNB : icount + 127 ≤ B) :
    ∀ (n : Nat) (s : driver_state W),
      (∀ st ∈ iteration_states a icount n s, ∀ f : Function, invoked_unit a st = some f →
        ∃ k : Nat, 1 ≤ k ∧ k ≤ blk_size ∧
          a.get_icount (a.call_unit f (translated_core a st)).1
            = (a.get_icount (translated_core a st) + k) % 2 ^ 64) →
      (∀ st ∈ iteration_states a icount n s,
        a.get_icount (translated_core a st) = a.get_icount st.core) →
      a.get_icount s.core ≤ B →
      ∀ evs : List Event, (start_loop a icount n s).2.trace = s.trace ++ evs →
        (∀ id addr, Event.enter_trap id addr ∉ evs) →
        a.get_icount (start_loop a icount n s).2.core ≤ B := by
  intro n
  induction n with
  | zero => intro s _ _ hs evs _ _; simpa [start_loop] using hs
  | succ n ih =>
    intro s hunit htrans hs evs htr hno
    unfold iteration_states at hunit htrans
    unfold start_loop at htr ⊢
    by_cases hc : icount < 0 ∨ to_int64 (a.get_icount s.core) < icount
    · rw [if_pos hc] at htr hunit htrans ⊢
      have hlt : ((a.get_icount s.core : Nat) : Int) < icount := by
        rcases hc with hc | hc
        · omega
        · unfold to_int64 at hc
          have h1 : a.get_icount s.core % 2 ^ 64 = a.get_icount s.core :=
            Nat.mod_eq_of_lt (by omega)
          rw [h1, if_pos (by omega)] at hc
          exact hc
      have hcnt := try_block_count a s (hunit s (List.mem_cons_self _ _))
        (htrans s (List.mem_cons_self _ _))
      obtain ⟨evs1, h1, hcase⟩ := loop_body_cases a s
      have hstep : (∀ id addr, Event.enter_trap id addr ∉ evs1) →
          a.get_icount (loop_body a s).1.core ≤ B := by
        intro hno1
        rcases hcase with ⟨id, addr, hmem⟩ | hcore
        · exact absurd hmem (hno1 id addr)
        · rw [hcore]
          rcases hcnt with heq | ⟨k, hk1, hk2, hk⟩
          · rw [heq]; exact hs
          · rw [hk]
            unfold blk_size at hk2
            omega
      rcases hb : loop_body a s with ⟨s1, r⟩
      rw [hb] at h1 hstep hunit htrans
      simp only at h1 hstep
      cases r with
      | ok u =>
        simp only [hb] at htr ⊢
        dsimp only at hunit htrans
        obtain ⟨evs2, h2⟩ := start_loop_trace a icount n s1
        have hevs : evs = evs1 ++ evs2 := by
          have : s.trace ++ evs = s.trace ++ (evs1 ++ evs2) := by
            rw [← htr, h2, h1, List.append_assoc]
          exact List.append_cancel_left this
        have hno1 : ∀ id addr, Event.enter_trap id addr ∉ evs1 := by
          intro id addr hmem
          exact hno id addr (by rw [hevs]; exact List.mem_append_left _ hmem)
        have hno2 : ∀ id addr, Event.enter_trap id addr ∉ evs2 := by
          intro id addr hmem
          exact hno id addr (by rw [hevs]; exact List.mem_append_right _ hmem)
        exact ih s1 (fun st hst => hunit st (List.mem_cons_of_mem _ hst))
          (fun st hst => htrans st (List.mem_cons_of_mem _ hst)) (hstep hno1) evs2 h2 hno2
      | error e =>
        simp only [hb] at htr ⊢
        have hevs : evs = evs1 := by
          have : s.trace ++ evs = s.trace ++ evs1 := by rw [← htr, h1]
          exact List.append_cancel_left this
        exact hstep (by rw [← hevs]; exact hno)
    · rw [if_neg hc]
      exact hs

/-- Claim C1, amended: for a limit N with 0 <= N <= 2 ^ 63 - 128 and a count below 2 ^ 63 at
entry, in every run of `start(N)` in which no access trap is raised (no call of enter_trap),
where every unit the run invokes adds between 1 and blk_size to the count and every
translation step the run makes leaves the count alone, the count never exceeds the larger of
its value at entry and N + blk_size - 1: the limit is compared before a unit is run, and the
unit then runs to its end. The two conditions are asked of the iterations of this run only. -/
theorem C1_instruction_limit_overshoot {W : Type} (a : arch W) (steps : Nat) (icount : Int)
    (s : driver_state W)
    (hN : 0 ≤ icount) (hmax : icount + blk_size ≤ 2 ^ 63) (h0 : a.get_icount s.core < 2 ^ 63)
    (hunit : ∀ st ∈ iteration_states a icount steps (start_init a s), ∀ f : Function,
      invoked_unit a st = some f →
      ∃ k : Nat, 1 ≤ k ∧ k ≤ blk_size ∧
        a.get_icount (a.call_unit f (translated_core a st)).1
          = (a.get_icount (translated_core a st) + k) % 2 ^ 64)
    (htrans : ∀ st ∈ iteration_states a icount steps (start_init a s),
      a.get_icount (translated_core a st) = a.get_icount st.core)
    (hnotrap : ∀ evs : List Event, (start a steps icount s).2.trace = s.trace ++ evs →
      ∀ id addr, Event.enter_trap id addr ∉ evs) :
    ((a.get_icount (start a steps icount s).2.core : Nat) : Int)
      ≤ max ((a.get_icount s.core : Nat) : Int) (icount + blk_size - 1) := by
  obtain ⟨evs, hevs⟩ := start_loop_trace a icount steps (start_init a s)
  have hb : blk_size = 128 := rfl
  rw [hb] at hmax ⊢
  have := start_loop_bound a icount (max (a.get_icount s.core) (icount + 127).toNat) hN
    (by omega) (by omega) steps (start_init a s) hunit htrans (le_max_left _ _) evs hevs
    (hnotrap evs hevs)
  have h2 : (start a steps icount s).2.core
      = (start_loop a icount steps (start_init a s)).2.core := rfl
  rw [h2]
  omega

/-- Counterexample to C1 as stated: with the limit N = 1 and the count 0 at entry, the unit at
address 0 holds two instructions (two generator calls); the loop condition 0 < 1 lets it run,
the unit adds 2, and `start` returns 0 with the count 2 > N. No access trap is raised in the
run: its calls are one build and one invocation. -/
theorem C1_counterexample :
    (disass (demo_arch demo_prog_pair) demo_vm 0 [] 0).invocations = 2 ∧
    (start (demo_arch demo_prog_pair) 5 1 demo_state).1 = .returned 0 ∧
    (start (demo_arch demo_prog_pair) 5 1 demo_state).2.trace = [.built 0 .BRANCH, .invoked 0] ∧
    (demo_arch demo_prog_pair).get_icount (start (demo_arch demo_prog_pair) 5 1 demo_state).2.core
      = 2 ∧
    ¬ ((((demo_arch demo_prog_pair).get_icount
        (start (demo_arch demo_prog_pair) 5 1 demo_state).2.core : Nat) : Int) ≤ 1) := by
  refine ⟨?_, ?_, ?_, ?_, ?_⟩ <;> decide

/-! ## The trap-truncated return and the processing stack -/

theorem disass_loop_cont_of_error {W : Type} (a : arch W) (vm : vm_base)
    (stack : List (Nat × Nat)) :
    ∀ (n : Nat) (s : disass_state W) (e : Exn), (disass_loop a vm stack n s).2 = some e →
      (disass_loop a vm stack n s).1.cont = .CONT := by
  intro n
  induction n with
  | zero => intro s e h; simp [disass_loop] at h
  | succ n ih =>
    intro s e h
    unfold disass_loop at h ⊢
    by_cases hc : s.cont = .CONT ∧ s.cur_blk < blk_size
    · rw [if_pos hc] at h ⊢
      cases hr : (a.gen_single_inst_behavior vm stack s.core s.cur_pc s.num_inst s.bb).result with
      | error e1 =>
        simp only [hr]
        exact hc.1
      | ok cb =>
        obtain ⟨c, b⟩ := cb
        simp only [hr] at h ⊢
        exact ih _ e h
    · rw [if_neg hc] at h
      simp at h

/-- Claim C15: when `gen_single_inst_behavior` raised trap_access inside the loop of `disass`
and `disass` returns a unit all the same, the outcome it returns is CONT, whatever the trap's
id and address. -/
theorem C15_trap_truncated_outcome {W : Type} (a : arch W) (vm : vm_base) (core : W)
    (stack : List (Nat × Nat)) (pc pc_p id addr : Nat) (c : continuation_e) (f : Function)
    (hv : a.v2p core pc = .ok pc_p)
    (hraise : (disass_loop a vm ((pc, pc_p) :: stack) blk_size (disass_init a vm core pc)).2
      = some (.trap_access id addr))
    (hret : (disass a vm core stack pc).result = .ok (c, f)) :
    c = .CONT ∧ c ≠ .FLUSH ∧ c ≠ .TRAP ∧ c ≠ .BRANCH := by
  have hcont := disass_loop_cont_of_error a vm ((pc, pc_p) :: stack) blk_size
    (disass_init a vm core pc) _ hraise
  have hc : c = .CONT := by
    unfold disass at hret
    rw [hv] at hret
    simp only [hraise] at hret
    unfold disass_catch at hret
    simp only at hret
    split at hret
    · simp at hret
    · split at hret
      · simp only [Except.ok.injEq, Prod.mk.injEq] at hret
        rw [← hret.1]
        exact hcont
      · simp at hret
  subst hc
  exact ⟨rfl, by decide, by decide, by decide⟩

/-- Witness of C15: the unit at address 0 whose second instruction raises a fetch fault is
returned with outcome CONT. -/
theorem C15_trap_truncated_outcome_witness :
    (disass_loop (demo_arch demo_prog_fetch_fault) demo_vm [(0, 0)] blk_size
        (disass_init (demo_arch demo_prog_fetch_fault) demo_vm 0 0)).2
      = some (.trap_access 5 4) ∧
    continuation_e.CONT = .CONT ∧ continuation_e.CONT ≠ .FLUSH ∧ continuation_e.CONT ≠ .TRAP ∧
      continuation_e.CONT ≠ .BRANCH :=
  ⟨rfl,
    C15_trap_truncated_outcome (demo_arch demo_prog_fetch_fault) demo_vm 0 [] 0 0 5 4 .CONT
      { name := GenerateUniqueName "block" 0,
        body := demo_after_plain.body ++ [] ++ [(some entry_blk, .br leave_blk)] }
      rfl rfl rfl⟩

theorem disass_stack_restored {W : Type} (a : arch W) (vm : vm_base) (core : W)
    (stack : List (Nat × Nat)) (pc : Nat)
    (h : (disass a vm core stack pc).result ≠ .error .assertion_failed) :
    (disass a vm core stack pc).processing_pc = stack := by
  unfold disass at h ⊢
  cases hv : a.v2p core pc with
  | error e => rfl
  | ok pc_p =>
    rw [hv] at h
    dsimp only at h ⊢
    split
    · rename_i heq
      exact absurd heq h
    · rfl

theorem disass_loop_with_stack {W : Type} (a : arch W) (vm : vm_base) (stk : List (Nat × Nat)) :
    ∀ (n : Nat) (s : disass_state W),
      disass_loop (a.with_stack stk) vm stk n s = disass_loop a vm stk n s := by
  intro n
  induction n with
  | zero => intro s; rfl
  | succ n ih =>
    intro s
    unfold disass_loop
    by_cases hc : s.cont = .CONT ∧ s.cur_blk < blk_size
    · rw [if_pos hc, if_pos hc]
      have hg : (a.with_stack stk).gen_single_inst_behavior vm stk s.core s.cur_pc s.num_inst s.bb
          = a.gen_single_inst_behavior vm stk s.core s.cur_pc s.num_inst s.bb := rfl
      simp only [hg]
      cases hr : (a.gen_single_inst_behavior vm stk s.core s.cur_pc s.num_inst s.bb).result with
      | error e => rfl
      | ok cb =>
        obtain ⟨c, b⟩ := cb
        simp only
        exact ih _
    · rw [if_neg hc, if_neg hc]

/-- Claim C13: however `disass(pc)` ends by a return or an exception (a unit returned in full
or truncated by a trap, trap_access raised again, decoding_error or simulation_stopped from
the generator, or an exception of the first `v2p`), the processing stack afterwards is the
stack before the call; and every call of the generator inside `disass` sees the stack with
the pair (pc, v2p(pc)) on top of the caller's stack: `disass` is unchanged when the generator
is replaced by one that is always shown that stack. -/
theorem C13_processing_pc_balanced {W : Type} (a : arch W) (vm : vm_base) (core : W)
    (stack : List (Nat × Nat)) (pc : Nat) :
    (∀ (c : continuation_e) (f : Function), (disass a vm core stack pc).result = .ok (c, f) →
      (disass a vm core stack pc).processing_pc = stack) ∧
    (∀ id addr : Nat, (disass a vm core stack pc).result = .error (.trap_access id addr) →
      (disass a vm core stack pc).processing_pc = stack) ∧
    (∀ addr : Nat, (disass a vm core stack pc).result = .error (.decoding_error addr) →
      (disass a vm core stack pc).processing_pc = stack) ∧
    (∀ state : Int, (disass a vm core stack pc).result = .error (.simulation_stopped state) →
      (disass a vm core stack pc).processing_pc = stack) ∧
    (∀ pc_p : Nat, a.v2p core pc = .ok pc_p →
      disass (a.with_stack ((pc, pc_p) :: stack)) vm core stack pc = disass a vm core stack pc) := by
  refine ⟨?_, ?_, ?_, ?_, ?_⟩
  · intro c f h
    exact disass_stack_restored a vm core stack pc (by rw [h]; simp)
  · intro id addr h
    exact disass_stack_restored a vm core stack pc (by rw [h]; simp)
  · intro addr h
    exact disass_stack_restored a vm core stack pc (by rw [h]; simp)
  · intro state h
    exact disass_stack_restored a vm core stack pc (by rw [h]; simp)
  · intro pc_p hv
    have hv2 : (a.with_stack ((pc, pc_p) :: stack)).v2p core pc = .ok pc_p := hv
    unfold disass
    rw [hv, hv2]
    simp only
    rw [show disass_init (a.with_stack ((pc, pc_p) :: stack)) vm core pc = disass_init a vm core pc
      from rfl]
    rw [disass_loop_with_stack]
    rfl

/-- Witness of C13: a unit returned in full, a unit truncated by a trap, a trap raised again
and a decoding error all leave the caller's stack [(7, 7)] as it was. -/
theorem C13_processing_pc_balanced_witness :
    (disass (demo_arch demo_prog_pair) demo_vm 0 [(7, 7)] 0).processing_pc = [(7, 7)] ∧
    (disass (demo_arch demo_prog_fetch_fault) demo_vm 0 [(7, 7)] 0).processing_pc = [(7, 7)] ∧
    (disass (demo_arch (fun _ => .fault 5)) demo_vm 0 [(7, 7)] 4).processing_pc = [(7, 7)] ∧
    (disass (demo_arch (fun _ => .illegal)) demo_vm 0 [(7, 7)] 4).processing_pc = [(7, 7)] :=
  ⟨(C13_processing_pc_balanced (demo_arch demo_prog_pair) demo_vm 0 [(7, 7)] 0).1 .BRANCH
      { name := GenerateUniqueName "block" 0,
        body := demo_after_plain.body
          ++ ((demo_vm.gen_sync .PRE_SYNC 1) ++ [demo_set_next_pc demo_vm 0, .br leave_blk]).map
              (fun i => (some entry_blk, i)) } rfl,
    (C13_processing_pc_balanced (demo_arch demo_prog_fetch_fault) demo_vm 0 [(7, 7)] 0).1 .CONT
      { name := GenerateUniqueName "block" 0,
        body := demo_after_plain.body ++ [] ++ [(some entry_blk, .br leave_blk)] } rfl,
    (C13_processing_pc_balanced (demo_arch (fun _ => .fault 5)) demo_vm 0 [(7, 7)] 4).2.1 5 4 rfl,
    (C13_processing_pc_balanced (demo_arch (fun _ => .illegal)) demo_vm 0 [(7, 7)] 4).2.2.1 4 rfl⟩

/-! ## The phases notified to the core -/

theorem construct_sync_exec (traits : arch_traits) (needed : sync_type) (dbg : Bool)
    (core_id cluster_id : Nat) :
    (vm_base.construct traits needed dbg core_id cluster_id).sync_exec = needed := by
  cases needed <;> rfl

theorem gen_sync_notify_filter (vm : vm_base) (s : sync_type) (inst_id : Nat) :
    (vm.gen_sync s inst_id).filter (Inst.is_call .notify_phase)
      = if s.val &&& vm.sync_exec.val ≠ 0 then
          [.call .notify_phase [.core_ptr, gen_const 32 (vm.traits.phase_code (notifier_mapping s))]]
        else [] := by
  have hpre : (vm.gen_sync_pre s).filter (Inst.is_call .notify_phase) = [] := by
    unfold vm_base.gen_sync_pre
    by_cases hs : s = .PRE_SYNC <;> by_cases hd : vm.debugging_enabled = true <;>
      simp [hs, hd, Inst.is_call]
  have hpl : (vm.gen_sync_plugins s inst_id vm.plugins).filter (Inst.is_call .notify_phase) = [] := by
    rw [List.filter_eq_nil_iff]
    intro x hx
    have := gen_sync_plugins_all_plugin_calls vm s inst_id vm.plugins x hx
    cases x <;> simp_all [Inst.is_call]
  unfold vm_base.gen_sync
  rw [List.filter_append, List.filter_append, hpre, hpl]
  by_cases hb : s.val &&& vm.sync_exec.val = 0 <;> simp [hb, Inst.is_call]

/-- Claim C16: for a vm whose `sync_exec` is still what the constructor made of
`core.needed_sync()`: entering `start` with debugging enabled makes `sync_exec` exactly
PRE_SYNC, so that `gen_sync(POST_SYNC, i)` emits no notify_phase whatever the core required;
with debugging disabled `start` leaves `sync_exec` equal to `needed_sync()` and `gen_sync(s, i)`
emits one notify_phase exactly when `s` shares a bit with it, tagged ISTART for PRE_SYNC and
ALL_SYNC and IEND for POST_SYNC. -/
theorem C16_sync_exec_under_debugging {W : Type} (a : arch W) (s : driver_state W)
    (needed : sync_type) (i : Nat)
    (hctor : s.vm.sync_exec
      = (vm_base.construct s.vm.traits needed s.vm.debugging_enabled s.vm.core_id
          s.vm.cluster_id).sync_exec) :
    (s.vm.debugging_enabled = true →
      (start_init a s).vm.sync_exec = .PRE_SYNC ∧
      ((start_init a s).vm.gen_sync .POST_SYNC i).filter (Inst.is_call .notify_phase) = []) ∧
    (s.vm.debugging_enabled = false →
      (start_init a s).vm.sync_exec = needed ∧
      ∀ sy : sync_type,
        ((start_init a s).vm.gen_sync sy i).filter (Inst.is_call .notify_phase)
          = if sy.val &&& needed.val ≠ 0 then
              [.call .notify_phase
                [.core_ptr,
                  gen_const 32 (s.vm.traits.phase_code
                    (match sy with
                     | .POST_SYNC => .IEND
                     | _ => .ISTART))]]
            else []) := by
  rw [construct_sync_exec] at hctor
  constructor
  · intro hd
    have hvm : (start_init a s).vm = { s.vm with sync_exec := .PRE_SYNC } := by
      simp [start_init, hd]
    rw [hvm, gen_sync_notify_filter]
    exact ⟨rfl, by simp [sync_type.val]⟩
  · intro hd
    have hvm : (start_init a s).vm = s.vm := by
      simp [start_init, hd]
    rw [hvm]
    refine ⟨hctor, ?_⟩
    intro sy
    rw [gen_sync_notify_filter, hctor]
    cases sy <;> rfl

/-- Witness of C16: a core that requires POST_SYNC; with debugging enabled `start` makes
`sync_exec` PRE_SYNC, with debugging disabled it stays POST_SYNC. -/
theorem C16_sync_exec_under_debugging_witness :
    ((start_init (demo_arch demo_prog_pair)
        { demo_state with vm := vm_base.construct demo_traits .POST_SYNC true 0 0 }).vm.sync_exec
      = .PRE_SYNC) ∧
    ((start_init (demo_arch demo_prog_pair)
        { demo_state with vm := vm_base.construct demo_traits .POST_SYNC false 0 0 }).vm.sync_exec
      = .POST_SYNC) :=
  ⟨((C16_sync_exec_under_debugging (demo_arch demo_prog_pair)
        { demo_state with vm := vm_base.construct demo_traits .POST_SYNC true 0 0 }
        .POST_SYNC 0 rfl).1 rfl).1,
    ((C16_sync_exec_under_debugging (demo_arch demo_prog_pair)
        { demo_state with vm := vm_base.construct demo_traits .POST_SYNC false 0 0 }
        .POST_SYNC 0 rfl).2 rfl).1⟩

/-! ## Conditional assignment -/

theorem get_type_standard (ndebug : Bool) (w : Nat)
    (hw : w = 1 ∨ w = 8 ∨ w = 16 ∨ w = 32 ∨ w = 64) : get_type ndebug w = .ok w := by
  rcases hw with h | h | h | h | h <;> subst h <;> cases ndebug <;> rfl

theorem get_type_range (ndebug : Bool) (w ty : Nat) (h : get_type ndebug w = .ok ty) :
    ty = 1 ∨ ty = 8 ∨ ty = 16 ∨ ty = 32 ∨ ty = 64 := by
  unfold get_type at h
  split at h
  · simp at h
  · split at h
    · simp only [Except.ok.injEq] at h; omega
    · split at h
      · simp only [Except.ok.injEq] at h; omega
      · split at h
        · simp only [Except.ok.injEq] at h; omega
        · split at h
          · simp only [Except.ok.injEq] at h; omega
          · split at h
            · simp only [Except.ok.injEq] at h; omega
            · split at h
              · simp only [Except.ok.injEq] at h; omega
              · simp at h

theorem get_type_fixed (ndebug : Bool) (w : Nat) (h : get_type ndebug w = .ok w) :
    w = 1 ∨ w = 8 ∨ w = 16 ∨ w = 32 ∨ w = 64 :=
  get_type_range ndebug w w h

theorem gen_const_signed_one (w : Nat) (h1 : 1 ≤ w) : gen_const_signed w 1 = .const w 1 := by
  have hw2 : 2 ≤ 2 ^ w := by
    calc 2 = 2 ^ 1 := rfl
      _ ≤ 2 ^ w := Nat.pow_le_pow_right (by decide) h1
  unfold gen_const_signed
  have : ((1 : Int) % 2 ^ w) = 1 := by
    apply Int.emod_eq_of_lt (by decide)
    exact_mod_cast (by omega : 1 < 2 ^ w)
  rw [this]
  rfl

theorem gen_const_signed_neg_one (ty : Nat) :
    gen_const_signed ty (-1) = .const ty (2 ^ ty - 1) := by
  have hpos : 0 < 2 ^ ty := Nat.pow_pos (by decide)
  unfold gen_const_signed
  have hcast : ((2 ^ ty - 1 : Nat) : Int) = (2 : Int) ^ ty - 1 := by
    rw [Nat.cast_sub hpos]
    simp
  have hposz : (0 : Int) < 2 ^ ty := by positivity
  have : ((-1 : Int) % 2 ^ ty) = ((2 ^ ty - 1 : Nat) : Int) := by
    rw [hcast]
    have hsplit : (-1 : Int) = ((2 : Int) ^ ty - 1) + (-1) * 2 ^ ty := by ring
    rw [hsplit, Int.add_mul_emod_self]
    exact Int.emod_eq_of_lt (by omega) (by omega)
  rw [this, Int.toNat_ofNat]

theorem cond_assign_value (env : Value → Nat) (z t f : Value) (w : Nat)
    (h1 : 1 ≤ w) (hz : z.bits = w)
    (ht : t.eval env < 2 ^ w) (hf : f.eval env < 2 ^ w) :
    (z.eval env = 1 →
      (Value.or (.and t (.xor (.sub z (gen_const_signed w 1))
          (gen_const_signed w (-1)))) (.and f (.sub z (gen_const_signed w 1)))).eval env
        = t.eval env) ∧
    (z.eval env = 0 →
      (Value.or (.and t (.xor (.sub z (gen_const_signed w 1))
          (gen_const_signed w (-1)))) (.and f (.sub z (gen_const_signed w 1)))).eval env
        = f.eval env) := by
  have hw2 : 2 ≤ 2 ^ w := by
    calc 2 = 2 ^ 1 := rfl
      _ ≤ 2 ^ w := Nat.pow_le_pow_right (by decide) h1
  rw [gen_const_signed_one w h1, gen_const_signed_neg_one w]
  have hstep : (Value.or (.and t (.xor (.sub z (.const w 1))
        (.const w (2 ^ w - 1)))) (.and f (.sub z (.const w 1)))).eval env
      = (t.eval env &&& (((z.eval env + (2 ^ z.bits - 1 % 2 ^ z.bits)) % 2 ^ z.bits)
            ^^^ (2 ^ w - 1)))
        ||| (f.eval env &&& ((z.eval env + (2 ^ z.bits - 1 % 2 ^ z.bits)) % 2 ^ z.bits)) := rfl
  rw [hstep, hz, Nat.mod_eq_of_lt (by omega : 1 < 2 ^ w)]
  constructor
  · intro hc
    rw [hc, show 1 + (2 ^ w - 1) = 2 ^ w by omega, Nat.mod_self]
    simp only [Nat.zero_xor, Nat.and_zero, Nat.or_zero]
    rw [Nat.and_pow_two_sub_one_eq_mod]
    exact Nat.mod_eq_of_lt (by omega)
  · intro hc
    rw [hc, Nat.zero_add, Nat.mod_eq_of_lt (by omega : 2 ^ w - 1 < 2 ^ w)]
    simp only [Nat.xor_self, Nat.and_zero, Nat.zero_or]
    rw [Nat.and_pow_two_sub_one_eq_mod]
    exact Nat.mod_eq_of_lt (by omega)

theorem gen_const_signed_bits (size : Nat) (val : Int) : (gen_const_signed size val).bits = size :=
  rfl

theorem gen_cond_assign_of_zext (ndebug : Bool) (cond z t f : Value) (w : Nat)
    (hw : w = 1 ∨ w = 8 ∨ w = 16 ∨ w = 32 ∨ w = 64)
    (hzx : create_zext cond w = .ok z) (hz : z.bits = w) (htb : t.bits = w) (hfb : f.bits = w) :
    gen_cond_assign ndebug cond t f
      = .ok (Value.or (.and t (.xor (.sub z (gen_const_signed w 1))
          (gen_const_signed w (-1)))) (.and f (.sub z (gen_const_signed w 1)))) := by
  unfold gen_cond_assign
  rw [hfb, get_type_standard ndebug w hw]
  dsimp only
  rw [hzx]
  dsimp only
  have hsub : create_binop Value.sub z (gen_const_signed w 1)
      = .ok (.sub z (gen_const_signed w 1)) := by
    unfold create_binop
    rw [if_pos (by rw [hz, gen_const_signed_bits])]
  rw [hsub]
  dsimp only
  have hfm : (Value.sub z (gen_const_signed w 1)).bits = w := hz
  have hxor : create_binop Value.xor (.sub z (gen_const_signed w 1))
        (gen_const_signed (Value.sub z (gen_const_signed w 1)).bits (-1))
      = .ok (.xor (.sub z (gen_const_signed w 1)) (gen_const_signed w (-1))) := by
    rw [hfm]
    unfold create_binop
    rw [if_pos (by rw [hfm, gen_const_signed_bits])]
  rw [hxor]
  dsimp only
  have hand1 : create_binop Value.and t (.xor (.sub z (gen_const_signed w 1))
        (gen_const_signed w (-1)))
      = .ok (.and t (.xor (.sub z (gen_const_signed w 1)) (gen_const_signed w (-1)))) := by
    unfold create_binop
    rw [if_pos (by rw [htb]; exact hfm.symm)]
  rw [hand1]
  dsimp only
  have hand2 : create_binop Value.and f (.sub z (gen_const_signed w 1))
      = .ok (.and f (.sub z (gen_const_signed w 1))) := by
    unfold create_binop
    rw [if_pos (by rw [hfb]; exact hfm.symm)]
  rw [hand2]
  dsimp only
  unfold create_binop
  rw [if_pos (by show t.bits = f.bits; rw [htb, hfb])]

theorem create_zext_bits (v z : Value) (ty : Nat) (h : create_zext v ty = .ok z) :
    z.bits = ty := by
  unfold create_zext at h
  split at h
  · rename_i hv
    simp only [Except.ok.injEq] at h
    rw [← h]
    exact hv
  · split at h
    · simp only [Except.ok.injEq] at h
      rw [← h]
      rfl
    · simp at h

theorem create_zext_eval (env : Value → Nat) (v z : Value) (ty : Nat)
    (h : create_zext v ty = .ok z) : z.eval env = v.eval env := by
  unfold create_zext at h
  split at h
  · simp only [Except.ok.injEq] at h
    rw [← h]
  · split at h
    · simp only [Except.ok.injEq] at h
      rw [← h]
      rfl
    · simp at h

theorem create_zext_of_bit (cond : Value) (w : Nat) (h1 : 1 ≤ w) (hcb : cond.bits = 1) :
    ∃ z, create_zext cond w = .ok z := by
  unfold create_zext
  by_cases hc : cond.bits = w
  · exact ⟨cond, by rw [if_pos hc]⟩
  · exact ⟨.zext cond w, by rw [if_neg hc, if_pos (by omega)]⟩

theorem get_type_error (ndebug : Bool) (w : Nat) (e : Exn) (h : get_type ndebug w = .error e) :
    e = .assertion_failed := by
  unfold get_type at h
  split at h
  · simp only [Except.error.injEq] at h
    exact h.symm
  · split at h
    · simp at h
    · split at h
      · simp at h
      · split at h
        · simp at h
        · split at h
          · simp at h
          · split at h
            · simp at h
            · split at h
              · simp at h
              · simp only [Except.error.injEq] at h
                exact h.symm

theorem create_zext_error (v : Value) (ty : Nat) (e : Exn) (h : create_zext v ty = .error e) :
    e = .assertion_failed := by
  unfold create_zext at h
  split at h
  · simp at h
  · split at h
    · simp at h
    · simp only [Except.error.injEq] at h
      exact h.symm

theorem gen_cond_assign_rejects (ndebug : Bool) (cond t f : Value)
    (hw : ¬ (f.bits = 1 ∨ f.bits = 8 ∨ f.bits = 16 ∨ f.bits = 32 ∨ f.bits = 64)) :
    gen_cond_assign ndebug cond t f = .error .assertion_failed := by
  unfold gen_cond_assign
  cases hgt : get_type ndebug f.bits with
  | error e =>
    dsimp only
    rw [get_type_error ndebug f.bits e hgt]
  | ok ty =>
    dsimp only
    have hty := get_type_range ndebug f.bits ty hgt
    cases hzx : create_zext cond ty with
    | error e =>
      dsimp only
      rw [create_zext_error cond ty e hzx]
    | ok z =>
      dsimp only
      have hz := create_zext_bits cond z ty hzx
      have hsub : create_binop Value.sub z (gen_const_signed f.bits 1)
          = .error .assertion_failed := by
        unfold create_binop
        rw [if_neg]
        rw [hz, gen_const_signed_bits]
        intro h
        rw [← h] at hw
        exact hw hty
      rw [hsub]

/-- C14 (amended): for operands `t` and `f` of one of the integer types of 1, 8, 16, 32 or 64
bits and an i1 `cond`, `gen_cond_assign(cond, t, f)` builds a value, which equals `t` when
`cond` is 1 and `f` when `cond` is 0; for an `f` of any other width an assertion fails and no
value is built. -/
theorem C14_cond_assign_selects (ndebug : Bool) (env : Value → Nat) (cond t f : Value) (w : Nat)
    (hw : w = 1 ∨ w = 8 ∨ w = 16 ∨ w = 32 ∨ w = 64)
    (hcb : cond.bits = 1) (htb : t.bits = w) (hfb : f.bits = w)
    (ht : t.eval env < 2 ^ w) (hf : f.eval env < 2 ^ w) :
    (∃ v : Value, gen_cond_assign ndebug cond t f = .ok v ∧
      (cond.eval env = 1 → v.eval env = t.eval env) ∧
      (cond.eval env = 0 → v.eval env = f.eval env)) ∧
    (∀ c2 t2 f2 : Value,
      ¬ (f2.bits = 1 ∨ f2.bits = 8 ∨ f2.bits = 16 ∨ f2.bits = 32 ∨ f2.bits = 64) →
      gen_cond_assign ndebug c2 t2 f2 = .error .assertion_failed) := by
  have h1 : 1 ≤ w := by omega
  refine ⟨?_, fun c2 t2 f2 h => gen_cond_assign_rejects ndebug c2 t2 f2 h⟩
  obtain ⟨z, hzx⟩ := create_zext_of_bit cond w h1 hcb
  have hz := create_zext_bits cond z w hzx
  have hze := create_zext_eval env cond z w hzx
  refine ⟨_, gen_cond_assign_of_zext ndebug cond z t f w hw hzx hz htb hfb, ?_, ?_⟩
  · intro hc
    exact (cond_assign_value env z t f w h1 hz ht hf).1 (by rw [hze]; exact hc)
  · intro hc
    exact (cond_assign_value env z t f w h1 hz ht hf).2 (by rw [hze]; exact hc)

theorem C14_cond_assign_selects_witness :
    (∃ v : Value,
      gen_cond_assign false
          (.icmp_ne (.get_reg .core_ptr (.const 16 0)) (.const 64 0))
          (.trunc (.get_reg .core_ptr (.const 16 1)) 8)
          (.trunc (.get_reg .core_ptr (.const 16 2)) 8) = .ok v ∧
      v.eval demo_env_byte = 200) ∧
    Value.eval demo_env_byte (.icmp_ne (.get_reg .core_ptr (.const 16 0)) (.const 64 0)) = 1 ∧
    Value.eval demo_env_byte (.trunc (.get_reg .core_ptr (.const 16 1)) 8) = 200 ∧
    Value.eval demo_env_byte (.trunc (.get_reg .core_ptr (.const 16 2)) 8) = 100 := by
  refine ⟨?_, by decide, by decide, by decide⟩
  obtain ⟨v, hv, h1, _⟩ := (C14_cond_assign_selects false demo_env_byte
    (.icmp_ne (.get_reg .core_ptr (.const 16 0)) (.const 64 0))
    (.trunc (.get_reg .core_ptr (.const 16 1)) 8)
    (.trunc (.get_reg .core_ptr (.const 16 2)) 8) 8
    (by decide) rfl rfl rfl (by decide) (by decide)).1
  exact ⟨v, hv, by rw [h1 (by decide)]; decide⟩

/-- C14 refuted as stated: with a 12 bit `t` of value 200, a 12 bit `f` of value 100 and an i1
`cond` of value 1, `gen_cond_assign(cond, t, f)` extends `cond` to the 16 bit type
`get_type(12)` and subtracts a 12 bit constant from it, which the IR builder rejects, so that
no value is built, in a build with assertions and in one without. -/
theorem C14_counterexample :
    Value.bits (.trunc (.get_reg .core_ptr (.const 16 1)) 12) = 12 ∧
    Value.bits (.trunc (.get_reg .core_ptr (.const 16 2)) 12) = 12 ∧
    Value.bits (.icmp_ne (.get_reg .core_ptr (.const 16 0)) (.const 64 0)) = 1 ∧
    Value.eval demo_env_byte (.icmp_ne (.get_reg .core_ptr (.const 16 0)) (.const 64 0)) = 1 ∧
    Value.eval demo_env_byte (.trunc (.get_reg .core_ptr (.const 16 1)) 12) = 200 ∧
    get_type false 12 = .ok 16 ∧
    create_zext (.icmp_ne (.get_reg .core_ptr (.const 16 0)) (.const 64 0)) 16
      = .ok (.zext (.icmp_ne (.get_reg .core_ptr (.const 16 0)) (.const 64 0)) 16) ∧
    create_binop Value.sub
        (.zext (.icmp_ne (.get_reg .core_ptr (.const 16 0)) (.const 64 0)) 16)
        (gen_const_signed 12 1) = .error .assertion_failed ∧
    gen_cond_assign false
        (.icmp_ne (.get_reg .core_ptr (.const 16 0)) (.const 64 0))
        (.trunc (.get_reg .core_ptr (.const 16 1)) 12)
        (.trunc (.get_reg .core_ptr (.const 16 2)) 12) = .error .assertion_failed ∧
    gen_cond_assign true
        (.icmp_ne (.get_reg .core_ptr (.const 16 0)) (.const 64 0))
        (.trunc (.get_reg .core_ptr (.const 16 1)) 12)
        (.trunc (.get_reg .core_ptr (.const 16 2)) 12) = .error .assertion_failed :=
  ⟨rfl, rfl, rfl, by decide, by decide, rfl, rfl, rfl, rfl, rfl⟩

/-! ## Memory accesses -/

theorem mem_branch_weights_eq (x : codegen_config) :
    mem_branch_weights x = [x.UnlikelyBranchWeight, x.LikelyBranchWeight] := rfl

/-- Claim C12, amended: the conditional branch `gen_read_mem` and `gen_write_mem` emit after the
memory call goes to the trap block exactly when the status returned by that call is not 0
and otherwise to the continuation block the method has just created, which becomes the
insertion point; the weight attached to the continuation path is the value of
LikelyBranchWeight and the weight attached to the trap path is the value of
UnlikelyBranchWeight, so the continuation weight is strictly greater exactly when the two
options are configured with LikelyBranchWeight > UnlikelyBranchWeight. -/
theorem C12_mem_access_branch (x : codegen_config) (b : builder) (type length : Nat)
    (addr val : Value) :
    (∃ args : List Value,
      (gen_read_mem x b type addr length).1.body
        = b.body ++
          [(b.insert_point, .call .read_mem args),
            (b.insert_point,
              .cond_br (.icmp_ne (.result_of .read_mem b.body.length) (gen_const 8 0)) trap_blk
                b.next_block [x.UnlikelyBranchWeight, x.LikelyBranchWeight])]) ∧
    (gen_read_mem x b type addr length).1.insert_point = some b.next_block ∧
    (gen_read_mem x b type addr length).1.next_block = b.next_block + 1 ∧
    (∃ args : List Value,
      (gen_write_mem x b type addr val).body
        = b.body ++
          [(b.insert_point, .store val (.alloca (val.bits % 2 ^ 32) b.body.length)),
            (b.insert_point, .call .write_mem args),
            (b.insert_point,
              .cond_br (.icmp_ne (.result_of .write_mem (b.body.length + 1)) (gen_const 8 0))
                trap_blk b.next_block [x.UnlikelyBranchWeight, x.LikelyBranchWeight])]) ∧
    (gen_write_mem x b type addr val).insert_point = some b.next_block ∧
    (gen_write_mem x b type addr val).next_block = b.next_block + 1 ∧
    (∀ (env : Value → Nat) (fn : runtime_fn) (n : Nat),
      Inst.target env
          (.cond_br (.icmp_ne (.result_of fn n) (gen_const 8 0)) trap_blk b.next_block
            [x.UnlikelyBranchWeight, x.LikelyBranchWeight])
        = some (if env (.result_of fn n) ≠ 0 then trap_blk else b.next_block)) ∧
    (∀ (fn : runtime_fn) (n : Nat),
      Inst.edge_weights
          (.cond_br (.icmp_ne (.result_of fn n) (gen_const 8 0)) trap_blk b.next_block
            [x.UnlikelyBranchWeight, x.LikelyBranchWeight])
        = some (x.UnlikelyBranchWeight, x.LikelyBranchWeight)) ∧
    (x.UnlikelyBranchWeight < x.LikelyBranchWeight ↔
      ∀ wt wf : Nat,
        Inst.edge_weights
            (.cond_br (.icmp_ne (.result_of .read_mem b.body.length) (gen_const 8 0)) trap_blk
              b.next_block [x.UnlikelyBranchWeight, x.LikelyBranchWeight]) = some (wt, wf) →
        wt < wf) := by
  refine ⟨⟨[.core_ptr, .const 32 (x.VIRTUAL % 2 ^ 16), .const 32 (type % 2 ^ 32), adj_to64 addr,
        .const 32 (length % 2 ^ 32), .bitcast (.alloca (length * 8 % 2 ^ 32) b.body.length) 8], ?_⟩,
    rfl, rfl,
    ⟨[.core_ptr, .const 32 (x.VIRTUAL % 2 ^ 16), .const 32 (type % 2 ^ 32), adj_to64 addr,
        .const 32 (val.bits % 2 ^ 32 / 8),
        .bitcast (.alloca (val.bits % 2 ^ 32) b.body.length) 8], ?_⟩,
    rfl, rfl, ?_, ?_, ?_⟩
  · simp [gen_read_mem, builder.insert, mem_branch_weights_eq]
  · simp [gen_write_mem, builder.insert, mem_branch_weights_eq]
  · intro env fn n
    simp only [Inst.target, Value.eval, gen_const]
    by_cases h : env (.result_of fn n) = 0
    · simp [h]
    · have h2 : ¬ env (.result_of fn n) = 0 % 2 ^ 8 := h
      simp [h, h2]
  · intro fn n
    rfl
  · constructor
    · intro h wt wf hw
      simp only [Inst.edge_weights, Option.some.injEq, Prod.mk.injEq] at hw
      omega
    · intro h
      exact h _ _ rfl

/-- Counterexample to C12 as stated: with the options set to LikelyBranchWeight = 1 and
UnlikelyBranchWeight = 2000 the branch `gen_read_mem` emits carries the weight 2000 on the trap
path and 1 on the continuation path; `gen_write_mem` does the same. -/
theorem C12_counterexample :
    ((gen_read_mem demo_config_inverted demo_builder 0 (.const 64 4096) 4).1.body.getLast?.bind
        (fun p => p.2.edge_weights)) = some (2000, 1) ∧
    ((gen_write_mem demo_config_inverted demo_builder 0 (.const 64 4096)
        (.const 32 7)).body.getLast?.bind (fun p => p.2.edge_weights)) = some (2000, 1) ∧
    ¬ ((2000 : Nat) < 1) := by
  refine ⟨?_, ?_, ?_⟩ <;> decide

/-! ## Unit names -/

theorem hex_digit_roundtrip (d : Nat) (h : d < 16) :
    hex_digit_value (Nat.digitChar d).toUpper = d ∧ is_hex_upper (Nat.digitChar d).toUpper = true := by
  have key : ∀ k : Fin 16, hex_digit_value (Nat.digitChar k.val).toUpper = k.val ∧
      is_hex_upper (Nat.digitChar k.val).toUpper = true := by decide
  exact key ⟨d, h⟩

theorem toDigitsCore_value :
    ∀ (fuel n : Nat) (ds : List Char), n < fuel →
      List.foldl (fun acc c => 16 * acc + hex_digit_value c) 0
          ((Nat.toDigitsCore 16 fuel n ds).map Char.toUpper)
        = List.foldl (fun acc c => 16 * acc + hex_digit_value c) n (ds.map Char.toUpper) := by
  intro fuel
  induction fuel with
  | zero => intro n ds h; omega
  | succ fuel ih =>
    intro n ds h
    have hd := (hex_digit_roundtrip (n % 16) (Nat.mod_lt _ (by decide))).1
    unfold Nat.toDigitsCore
    by_cases h0 : n / 16 = 0
    · simp only [h0, if_true, List.map_cons, List.foldl_cons, hd]
      have : n % 16 = n := Nat.mod_eq_of_lt (by omega)
      rw [this]
      simp
    · simp only [h0, if_false]
      rw [ih (n / 16) _ (by omega)]
      simp only [List.map_cons, List.foldl_cons, hd]
      have : 16 * (n / 16) + n % 16 = n := Nat.div_add_mod n 16
      rw [this]

theorem toDigitsCore_hex :
    ∀ (fuel n : Nat) (ds : List Char), (∀ c ∈ ds, is_hex_upper c.toUpper = true) →
      ∀ c ∈ Nat.toDigitsCore 16 fuel n ds, is_hex_upper c.toUpper = true := by
  intro fuel
  induction fuel with
  | zero => intro n ds h; simpa [Nat.toDigitsCore] using h
  | succ fuel ih =>
    intro n ds h
    have hd := (hex_digit_roundtrip (n % 16) (Nat.mod_lt _ (by decide))).2
    have hcons : ∀ c ∈ Nat.digitChar (n % 16) :: ds, is_hex_upper c.toUpper = true := by
      intro c hc
      rcases List.mem_cons.mp hc with hc | hc
      · rw [hc]; exact hd
      · exact h c hc
    unfold Nat.toDigitsCore
    by_cases h0 : n / 16 = 0
    · simp only [h0, if_true]
      exact hcons
    · simp only [h0, if_false]
      exact ih (n / 16) _ hcons

theorem hex_upper_value (n : Nat) : hex_value (hex_upper n) = n := by
  unfold hex_value hex_upper Nat.toDigits
  rw [toDigitsCore_value (n + 1) n [] (by omega)]
  rfl

theorem hex_upper_length (n : Nat) (h : n < 2 ^ 64) : (hex_upper n).length ≤ 16 := by
  unfold hex_upper Nat.toDigits
  rw [List.length_map]
  exact Nat.toDigitsCore_length 16 (by decide) (n + 1) n 16 (by omega) (by decide)

theorem hex_upper_chars (n : Nat) : ∀ c ∈ hex_upper n, is_hex_upper c = true := by
  intro c hc
  unfold hex_upper Nat.toDigits at hc
  obtain ⟨c0, hc0, rfl⟩ := List.mem_map.mp hc
  exact toDigitsCore_hex (n + 1) n [] (by simp) c0 hc0

theorem format_016lX_spec (n : Nat) (h : n < 2 ^ 64) :
    (format_016lX n).length = 16 ∧ (∀ c ∈ format_016lX n, is_hex_upper c = true) ∧
      hex_value (format_016lX n) = n := by
  have hlen := hex_upper_length n h
  refine ⟨?_, ?_, ?_⟩
  · unfold format_016lX
    rw [List.length_append, List.length_replicate]
    omega
  · intro c hc
    unfold format_016lX at hc
    rcases List.mem_append.mp hc with hc | hc
    · rw [(List.mem_replicate.mp hc).2]
      decide
    · exact hex_upper_chars n c hc
  · have hzero : ∀ k : Nat,
        List.foldl (fun acc c => 16 * acc + hex_digit_value c) 0 (List.replicate k '0') = 0 := by
      intro k
      induction k with
      | zero => rfl
      | succ k ih =>
        rw [List.replicate_succ, List.foldl_cons]
        exact ih
    have hv := hex_upper_value n
    unfold hex_value at hv ⊢
    unfold format_016lX
    rw [List.foldl_append, hzero]
    exact hv

theorem GenerateUniqueName_eq (str : String) (a : Nat) (h : a < 2 ^ 64) :
    GenerateUniqueName str a = str ++ String.mk (['@', '0', 'x'] ++ format_016lX a ++ ['_']) := by
  unfold GenerateUniqueName
  rw [Nat.mod_eq_of_lt h]
  rw [List.take_of_length_le]
  simp only [List.length_append, (format_016lX_spec a h).1, List.length_cons, List.length_nil]
  omega

theorem disass_catch_name {W : Type} (a : arch W) (pc : Nat) (name : String) (s : disass_state W)
    (id addr : Nat) (c : continuation_e) (f : Function)
    (h : disass_catch a pc name s id addr = .ok (c, f)) : f.name = name := by
  unfold disass_catch at h
  dsimp only at h
  split at h
  · simp at h
  · split at h
    · simp only [Except.ok.injEq, Prod.mk.injEq] at h
      rw [← h.2]
    · simp at h

theorem disass_finish_name {W : Type} (a : arch W) (pc : Nat) (name : String) (s : disass_state W)
    (c : continuation_e) (f : Function)
    (h : disass_finish a pc name s = .ok (c, f)) : f.name = name := by
  unfold disass_finish at h
  dsimp only at h
  split at h
  · split at h
    · simp only [Except.ok.injEq, Prod.mk.injEq] at h
      rw [← h.2]
    · simp at h
  · exact disass_catch_name a pc name _ _ _ c f h
  · simp at h

theorem disass_name {W : Type} (a : arch W) (vm : vm_base) (core : W) (stack : List (Nat × Nat))
    (pc pc_p : Nat) (c : continuation_e) (f : Function)
    (hv : a.v2p core pc = .ok pc_p) (h : (disass a vm core stack pc).result = .ok (c, f)) :
    f.name = GenerateUniqueName "block" pc_p := by
  unfold disass at h
  rw [hv] at h
  dsimp only at h
  split at h
  · exact disass_finish_name a pc _ _ c f h
  · exact disass_catch_name a pc _ _ _ _ c f h
  · simp at h

/-- Claim C11: for every string and every 64 bit value a, `GenerateUniqueName(str, a)` appends
to `str` exactly 20 characters: "@0x", sixteen upper-case hexadecimal digits that denote a
(zero-padded), and "_"; the buffer of 21 bytes truncates nothing. The name of a unit that
`disass` returns is "block" extended in this way by the unit's starting physical address,
and two distinct 64 bit values give two distinct names. -/
theorem C11_unique_name {W : Type} (a : arch W) (vm : vm_base) (core : W)
    (stack : List (Nat × Nat)) (pc : Nat) (str : String) (x y : Nat) :
    (x < 2 ^ 64 →
      ∃ ds : List Char, ds.length = 16 ∧ (∀ c ∈ ds, is_hex_upper c = true) ∧ hex_value ds = x ∧
        GenerateUniqueName str x = str ++ String.mk (['@', '0', 'x'] ++ ds ++ ['_']) ∧
        (GenerateUniqueName str x).length = str.length + 20) ∧
    (x < 2 ^ 64 → y < 2 ^ 64 → GenerateUniqueName str x = GenerateUniqueName str y → x = y) ∧
    (∀ (pc_p : Nat) (c : continuation_e) (f : Function), a.v2p core pc = .ok pc_p →
      (disass a vm core stack pc).result = .ok (c, f) →
      f.name = GenerateUniqueName "block" pc_p) := by
  refine ⟨?_, ?_, ?_⟩
  · intro hx
    obtain ⟨hlen, hchars, hval⟩ := format_016lX_spec x hx
    refine ⟨format_016lX x, hlen, hchars, hval, GenerateUniqueName_eq str x hx, ?_⟩
    have h20 : (['@', '0', 'x'] ++ format_016lX x ++ ['_']).length = 20 := by
      simp [hlen]
    rw [GenerateUniqueName_eq str x hx, String.length_append]
    have hmk : (String.mk (['@', '0', 'x'] ++ format_016lX x ++ ['_'])).length = 20 := by
      rw [String.length_mk]
      exact h20
    rw [hmk]
  · intro hx hy h
    rw [GenerateUniqueName_eq str x hx, GenerateUniqueName_eq str y hy] at h
    have hd := congrArg String.data h
    simp only [String.data_append] at hd
    have h1 := List.append_cancel_left hd
    have h2 : format_016lX x = format_016lX y :=
      List.append_cancel_left (List.append_cancel_right h1)
    have := congrArg hex_value h2
    rw [(format_016lX_spec x hx).2.2, (format_016lX_spec y hy).2.2] at this
    exact this
  · intro pc_p c f hv h
    exact disass_name a vm core stack pc pc_p c f hv h

/-- Witness of C11: the name of the unit at physical address 0 of the test architecture, the
name made from the address 0x1F, and two addresses with different names. -/
theorem C11_unique_name_witness :
    (∃ ds : List Char, ds.length = 16 ∧ (∀ c ∈ ds, is_hex_upper c = true) ∧ hex_value ds = 31 ∧
        GenerateUniqueName "block" 31 = "block" ++ String.mk (['@', '0', 'x'] ++ ds ++ ['_']) ∧
        (GenerateUniqueName "block" 31).length = "block".length + 20) ∧
    GenerateUniqueName "block" 31 = "block@0x000000000000001F_" ∧
    (GenerateUniqueName "block" 31 = GenerateUniqueName "block" 31 → 31 = 31) :=
  ⟨(C11_unique_name (demo_arch demo_prog_pair) demo_vm 0 [] 0 "block" 31 31).1 (by decide),
    by decide,
    (C11_unique_name (demo_arch demo_prog_pair) demo_vm 0 [] 0 "block" 31 31).2.1 (by decide)
      (by decide)⟩

theorem demo_fault_zero_states :
    iteration_states (demo_arch_from demo_prog_fault_zero 8) 3 10
        (start_init (demo_arch_from demo_prog_fault_zero 8) demo_state)
      = [start_init (demo_arch_from demo_prog_fault_zero 8) demo_state,
          (loop_body (demo_arch_from demo_prog_fault_zero 8)
            (start_init (demo_arch_from demo_prog_fault_zero 8) demo_state)).1,
          (loop_body (demo_arch_from demo_prog_fault_zero 8)
            (loop_body (demo_arch_from demo_prog_fault_zero 8)
              (start_init (demo_arch_from demo_prog_fault_zero 8) demo_state)).1).1] := rfl

theorem demo_fault_zero_units :
    ∀ st ∈ iteration_states (demo_arch_from demo_prog_fault_zero 8) 3 10
        (start_init (demo_arch_from demo_prog_fault_zero 8) demo_state),
      invoked_unit (demo_arch_from demo_prog_fault_zero 8) st = some demo_jump_unit ∧
      translated_core (demo_arch_from demo_prog_fault_zero 8) st = st.core := by
  intro st hst
  rw [demo_fault_zero_states] at hst
  simp only [List.mem_cons, List.mem_singleton, List.not_mem_nil, or_false] at hst
  rcases hst with h | h | h <;> subst h <;> exact ⟨rfl, rfl⟩

/-- Witness of C1: the test program with a fetch fault at address 0 and a one-instruction unit
everywhere else, entered at address 8 with the limit 3: the run builds the unit at 8 once,
invokes it three times, raises no trap, and every invoked unit adds 1; the unit `disass`
would return at address 0 holds no instruction, but the run never invokes it. -/
theorem C1_instruction_limit_overshoot_witness :
    (((demo_arch_from demo_prog_fault_zero 8).get_icount
        (start (demo_arch_from demo_prog_fault_zero 8) 10 3 demo_state).2.core : Nat) : Int)
      ≤ max (((demo_arch_from demo_prog_fault_zero 8).get_icount demo_state.core : Nat) : Int)
          (3 + blk_size - 1) :=
  C1_instruction_limit_overshoot (demo_arch_from demo_prog_fault_zero 8) 10 3 demo_state
    (by decide) (by decide) (by decide)
    (fun st hst f hf => by
      obtain ⟨hu, ht⟩ := demo_fault_zero_units st hst
      rw [hu] at hf
      simp only [Option.some.injEq] at hf
      subst hf
      rw [ht]
      exact ⟨1, by decide, by decide, rfl⟩)
    (fun st hst => by rw [(demo_fault_zero_units st hst).2])
    (fun evs hevs id addr hmem => by
      have htr : (start (demo_arch_from demo_prog_fault_zero 8) 10 3 demo_state).2.trace
          = [.built 8 .BRANCH, .invoked 8, .invoked 8, .invoked 8] := by decide
      rw [htr] at hevs
      have : evs = [.built 8 .BRANCH, .invoked 8, .invoked 8, .invoked 8] := by
        simpa [demo_state] using hevs.symm
      rw [this] at hmem
      simp at hmem)

end vm
end iss
